import Mathlib

set_option maxRecDepth 100000

/-!
Verification development for the contract-intelligence analysis pipeline.

The JavaScript source is embedded shallowly:
* strings are modelled as `List Char` (the texts handled by the service are ASCII);
* JavaScript numbers that the pipeline stores or compares are modelled as `ℚ`
  (every JSON numeral denotes a rational; floating-point rounding plays no role
  in any of the verified properties);
* fallible operations return `Option`/`Except`;
* the external LLM capability is an environment-supplied outcome, and the
  stage clients record how many capability calls they make.
-/

namespace ContractPlatform

/-! ## Character helpers -/

/-- Left brace character (written via its code so that brace characters never
occur literally inside string or char literals of this file). -/
def lbrace : Char := '\x7b'

/-- Right brace character. -/
def rbrace : Char := '\x7d'

/-- Single-quote character. -/
def squote : Char := '\x27'

/-- Double-quote character. -/
def dquote : Char := '"'

/-- Whitespace per the regexp class `\s` (ASCII fragment). -/
def isWsChar (c : Char) : Bool := c.isWhitespace

/-- Hexadecimal digit test. -/
def isHexChar (c : Char) : Bool :=
  c.isDigit || ('a' ≤ c && c ≤ 'f') || ('A' ≤ c && c ≤ 'F')

/-- Word characters per the regexp class `\w`: letters, digits and underscore. -/
def isWordChar (c : Char) : Bool := c.isAlphanum || c == '_'

/-- Whitespace accepted by `JSON.parse` between tokens. -/
def isJsonWs (c : Char) : Bool := c == ' ' || c == '\t' || c == '\n' || c == '\r'

/-- Skip JSON whitespace. -/
def skipJWs (l : List Char) : List Char := l.dropWhile isJsonWs

/-! ## JSON values (the result type of `JSON.parse`) -/

/-- A parsed JSON value.  Object fields keep their textual order. -/
inductive Json where
  | null : Json
  | bool (b : Bool) : Json
  | num (q : ℚ) : Json
  | str (s : List Char) : Json
  | arr (xs : List Json) : Json
  | obj (fields : List (List Char × Json)) : Json

/-! ## A model of `JSON.parse`

`_parseAIResponse` relies on the strict JSON parser of the runtime; the model
below implements the JSON grammar (objects, arrays, strings with escapes,
numbers, literals, inter-token whitespace) as a fuel-indexed recursive-descent
parser.  Fuel is structural so that concrete runs reduce definitionally. -/

/-- Parse the body of a JSON string, positioned after the opening quote.
Returns the decoded characters and the remainder after the closing quote.
Unescaped control characters and unknown escapes are rejected, as in
`JSON.parse`. -/
def parseJString : Nat → List Char → Option (List Char × List Char)
  | 0, _ => none
  | _ + 1, [] => none
  | fuel + 1, c :: cs =>
    if c = dquote then some ([], cs)
    else if c = '\\' then
      match cs with
      | [] => none
      | e :: cs' =>
        let cont (ch : Char) : Option (List Char × List Char) :=
          (parseJString fuel cs').map (fun p => (ch :: p.1, p.2))
        if e = dquote then cont dquote
        else if e = '\\' then cont '\\'
        else if e = '/' then cont '/'
        else if e = 'b' then cont '\x08'
        else if e = 'f' then cont '\x0c'
        else if e = 'n' then cont '\n'
        else if e = 'r' then cont '\r'
        else if e = 't' then cont '\t'
        else if e = 'u' then
          match cs' with
          | h1 :: h2 :: h3 :: h4 :: cs'' =>
            if isHexChar h1 && isHexChar h2 && isHexChar h3 && isHexChar h4 then
              let v := [h1, h2, h3, h4].foldl (fun a c => 16 * a + c.toNat % 16 +
                (if c.isDigit then 0 else 9)) 0
              (parseJString fuel cs'').map (fun p => (Char.ofNat v :: p.1, p.2))
            else none
          | _ => none
        else none
    else if c.toNat < 32 then none
    else (parseJString fuel cs).map (fun p => (c :: p.1, p.2))

/-- Numeric value of a digit string. -/
def digitsToNat (ds : List Char) : Nat := ds.foldl (fun a c => 10 * a + (c.toNat - 48)) 0

/-- Parse a JSON number at the head of the input (JSON grammar: optional minus,
integer part without spurious leading zeros, optional fraction, optional
exponent).  The numeral is returned exactly, as a rational. -/
def parseJNumber (l : List Char) : Option (Json × List Char) :=
  let (neg, l1) := match l with
    | '-' :: r => (true, r)
    | _ => (false, l)
  let intPart : Option (Nat × List Char) := match l1 with
    | '0' :: r => some (0, r)
    | c :: _ =>
      if c.isDigit then
        some (digitsToNat (l1.takeWhile Char.isDigit), l1.dropWhile Char.isDigit)
      else none
    | [] => none
  match intPart with
  | none => none
  | some (ip, r1) =>
    let fracPart : Option (ℚ × List Char) := match r1 with
      | '.' :: r2 =>
        let ds := r2.takeWhile Char.isDigit
        if ds.isEmpty then none
        else some ((digitsToNat ds : ℚ) / ((10 : ℚ) ^ ds.length), r2.dropWhile Char.isDigit)
      | _ => some (0, r1)
    match fracPart with
    | none => none
    | some (fp, r2) =>
      let expPart : Option (ℚ × List Char) := match r2 with
        | e :: r3 =>
          if e = 'e' || e = 'E' then
            let (eneg, r4) := match r3 with
              | '-' :: r5 => (true, r5)
              | '+' :: r5 => (false, r5)
              | _ => (false, r3)
            let ds := r4.takeWhile Char.isDigit
            if ds.isEmpty then none
            else
              let m : ℚ := (10 : ℚ) ^ digitsToNat ds
              some (if eneg then 1 / m else m, r4.dropWhile Char.isDigit)
          else some (1, r2)
        | [] => some (1, r2)
      match expPart with
      | none => none
      | some (ef, r3) =>
        let mag : ℚ := ((ip : ℚ) + fp) * ef
        some (.num (if neg then -mag else mag), r3)

/-- Parser mode: a full value, the members of an object (after the opening
brace or after a comma), or the items of an array.  `first` distinguishes the
position right after the opening bracket, where an empty container may close,
from the position after a comma, where a further element is mandatory. -/
inductive PMode where
  | val : PMode
  | objMem (first : Bool) : PMode
  | arrItem (first : Bool) : PMode

/-- The recursive core of the `JSON.parse` model. -/
def parseStep : Nat → PMode → List Char → Option (Json × List Char)
  | 0, _, _ => none
  | fuel + 1, .val, l =>
    match skipJWs l with
    | [] => none
    | c :: rest =>
      if c = lbrace then parseStep fuel (.objMem true) rest
      else if c = '[' then parseStep fuel (.arrItem true) rest
      else if c = dquote then
        (parseJString (rest.length + 1) rest).map (fun p => (.str p.1, p.2))
      else if c = 't' then
        if "rue".toList.isPrefixOf rest then some (.bool true, rest.drop 3) else none
      else if c = 'f' then
        if "alse".toList.isPrefixOf rest then some (.bool false, rest.drop 4) else none
      else if c = 'n' then
        if "ull".toList.isPrefixOf rest then some (.null, rest.drop 3) else none
      else parseJNumber (c :: rest)
  | fuel + 1, .objMem first, l =>
    match skipJWs l with
    | [] => none
    | c :: rest =>
      if first && c = rbrace then some (.obj [], rest)
      else if c = dquote then
        match parseJString (rest.length + 1) rest with
        | none => none
        | some (key, r1) =>
          match skipJWs r1 with
          | ':' :: r2 =>
            match parseStep fuel .val r2 with
            | none => none
            | some (v, r3) =>
              match skipJWs r3 with
              | ',' :: r4 =>
                match parseStep fuel (.objMem false) r4 with
                | some (.obj fs, r5) => some (.obj ((key, v) :: fs), r5)
                | _ => none
              | d :: r4 =>
                if d = rbrace then some (.obj [(key, v)], r4) else none
              | [] => none
          | _ => none
      else none
  | fuel + 1, .arrItem first, l =>
    match skipJWs l with
    | [] => none
    | c :: rest =>
      if first && c = ']' then some (.arr [], rest)
      else
        match parseStep fuel .val (c :: rest) with
        | none => none
        | some (v, r1) =>
          match skipJWs r1 with
          | ',' :: r2 =>
            match parseStep fuel (.arrItem false) r2 with
            | some (.arr xs, r3) => some (.arr (v :: xs), r3)
            | _ => none
          | ']' :: r2 => some (.arr [v], r2)
          | _ => none

/-- Model of `JSON.parse`: a complete value followed only by whitespace. -/
def jsonParse (l : List Char) : Option Json :=
  match parseStep (2 * l.length + 8) .val l with
  | some (v, rest) => if (skipJWs rest).isEmpty then some v else none
  | none => none

/-! ## The tolerant structured-text parser (`_parseAIResponse`)

Faithful model of `aiService._parseAIResponse` and its repair ladder. -/

/-- Remove every occurrence of `pat` (optionally followed by one newline) from
the input; models one `text.replace(/pat\n?/g, THE_EMPTY_STRING)` pass of the
markdown-fence stripping.  Fuel-indexed so that recursion is structural;
`fuel = length + 1` always suffices. -/
def stripPatAux (pat : List Char) : Nat → List Char → List Char
  | 0, l => l
  | _ + 1, [] => []
  | fuel + 1, c :: cs =>
    if pat.isPrefixOf (c :: cs) then
      let rest := (c :: cs).drop pat.length
      let rest2 := if rest.head? = some '\n' then rest.tail else rest
      stripPatAux pat fuel rest2
    else c :: stripPatAux pat fuel cs

/-- Strip markdown code fences: first every ```` ```json ```` marker, then
every ```` ``` ```` marker, each with an optional trailing newline. -/
def removeFences (l : List Char) : List Char :=
  let a := stripPatAux "```json".toList (l.length + 1) l
  stripPatAux "```".toList (a.length + 1) a

/-- Model of `String.prototype.trim`. -/
def jsTrim (l : List Char) : List Char :=
  ((l.dropWhile isWsChar).reverse.dropWhile isWsChar).reverse

/-- Model of `cleanText.match(/\x7b[\s\S]*\x7d/)`: the span from the first
left brace to the last right brace after it, or `none` when the pattern does
not occur. -/
def extractBraceSpan (l : List Char) : Option (List Char) :=
  let fromBrace := l.dropWhile (fun c => !(c == lbrace))
  match fromBrace with
  | [] => none
  | _ :: _ =>
    let upToClose := (fromBrace.reverse.dropWhile (fun c => !(c == rbrace))).reverse
    if upToClose.isEmpty then none else some upToClose

/-- Recognise `\s*\x27([^\x27]*)\x27` at the head of the input: optional
whitespace, then a single-quoted span.  Returns the span body and the
remainder after the closing quote. -/
def matchQuotedAfterWs (l : List Char) : Option (List Char × List Char) :=
  match l.dropWhile isWsChar with
  | q :: more =>
    if q = squote then
      match more.dropWhile (fun c => !(c == squote)) with
      | _ :: tail => some (more.takeWhile (fun c => !(c == squote)), tail)
      | [] => none
    else none
  | [] => none

/-- Repair pass 1a, `jsonStr.replace(/:\s*\x27([^\x27]*)\x27/g, COLON_DQ)`:
every colon followed by a single-quoted span is rewritten to a colon, one
space and the double-quoted span. -/
def fix1aAux : Nat → List Char → List Char
  | 0, l => l
  | _ + 1, [] => []
  | fuel + 1, c :: cs =>
    if c = ':' then
      match matchQuotedAfterWs cs with
      | some (content, tail) =>
        ':' :: ' ' :: dquote :: (content ++ dquote :: fix1aAux fuel tail)
      | none => ':' :: fix1aAux fuel cs
    else c :: fix1aAux fuel cs

/-- Recognise `\s*\x27([^\x27]*)\x27\s*:` at the head of the input (used right
after a left brace): a single-quoted key followed by a colon. -/
def matchBraceKey (l : List Char) : Option (List Char × List Char) :=
  match l.dropWhile isWsChar with
  | q :: more =>
    if q = squote then
      match more.dropWhile (fun c => !(c == squote)) with
      | _ :: rest2 =>
        match rest2.dropWhile isWsChar with
        | ':' :: tail => some (more.takeWhile (fun c => !(c == squote)), tail)
        | _ => none
      | [] => none
    else none
  | [] => none

/-- Repair pass 1b, rewriting a single-quoted key that directly follows a left
brace: `jsonStr.replace(/\x7b\s*\x27([^\x27]*)\x27\s*:/g, LB_DQ_KEY_DQ_COLON)`. -/
def fix1bAux : Nat → List Char → List Char
  | 0, l => l
  | _ + 1, [] => []
  | fuel + 1, c :: cs =>
    if c = lbrace then
      match matchBraceKey cs with
      | some (key, tail) =>
        lbrace :: dquote :: (key ++ dquote :: ':' :: fix1bAux fuel tail)
      | none => lbrace :: fix1bAux fuel cs
    else c :: fix1bAux fuel cs

/-- The literal `"description":` (with its surrounding double quotes). -/
def descrPat : List Char := "\"description\":".toList

/-- Recognise the repair-2 pattern `("description":\s*")([^"]*?)"` at the head
of the input; returns the matched whitespace run, the value span, and the
remainder. -/
def matchDescr (l : List Char) : Option (List Char × List Char × List Char) :=
  if descrPat.isPrefixOf l then
    let r := l.drop descrPat.length
    let ws := r.takeWhile isWsChar
    match r.dropWhile isWsChar with
    | q :: more =>
      if q = dquote then
        match more.dropWhile (fun c => !(c == dquote)) with
        | _ :: tail => some (ws, more.takeWhile (fun c => !(c == dquote)), tail)
        | [] => none
      else none
    | [] => none
  else none

/-- Escape double quotes in a span (the replacement callback of repair 2;
since the matched span can contain no double quote, this is the identity on
every span the pass feeds it). -/
def escapeDquotes (l : List Char) : List Char :=
  l.flatMap (fun c => if c = dquote then ['\\', dquote] else [c])

/-- Repair pass 2: re-escape embedded quotes inside `description` values. -/
def fixDescrAux : Nat → List Char → List Char
  | 0, l => l
  | _ + 1, [] => []
  | fuel + 1, c :: cs =>
    match matchDescr (c :: cs) with
    | some (ws, content, tail) =>
      descrPat ++ ws ++ dquote :: (escapeDquotes content ++ dquote :: fixDescrAux fuel tail)
    | none => c :: fixDescrAux fuel cs

/-- A field value that is itself a serialized object/array (a string starting
and ending with a matching bracket pair) is re-parsed after turning single
quotes into double quotes; failure to re-parse leaves the original string. -/
def validateAndParseField (v : Json) : Json :=
  match v with
  | .str s =>
    if (s.head? == some lbrace && s.getLast? == some rbrace) ||
        (s.head? == some '[' && s.getLast? == some ']') then
      match jsonParse (s.map (fun c => if c = squote then dquote else c)) with
      | some v' => v'
      | none => .str s
    else .str s
  | v => v

/-- The top-level fields `_validateAndFixParsedData` inspects. -/
def doubleEncodedKeys : List (List Char) :=
  ["parties", "keyDates", "financialTerms", "clauses", "risks", "issues",
    "recommendations", "comparableTerms"].map String.toList

/-- Model of `_validateAndFixParsedData`: each listed top-level field has its
value run through `validateAndParseField`.  (The JavaScript guard
`if (parsed.x)` only skips falsy values, on which `validateAndParseField` is
the identity anyway, so the composition is unchanged.) -/
def validateAndFixParsedData (j : Json) : Json :=
  match j with
  | .obj fs =>
    .obj (fs.map (fun p =>
      if doubleEncodedKeys.contains p.1 then (p.1, validateAndParseField p.2) else p))
  | j => j

/-- Parse errors of the tolerant parser: either no brace-delimited span was
found at all, or every repair attempt was exhausted. -/
inductive ParseError where
  | noStructureFound : ParseError
  | unparseable : ParseError
deriving DecidableEq

/-- Model of `_parseAIResponse`: strip fences, trim, locate the brace span,
strict-parse, and on failure apply repairs 1a, 1b and 2 in order before one
more strict parse. -/
def parseAIResponse (text : List Char) : Except ParseError Json :=
  let clean := jsTrim (removeFences text)
  match extractBraceSpan clean with
  | none => .error .noStructureFound
  | some jsonStr =>
    match jsonParse jsonStr with
    | some v => .ok (validateAndFixParsedData v)
    | none =>
      let j1 := fix1bAux (fix1aAux (jsonStr.length + 1) jsonStr).length.succ
        (fix1aAux (jsonStr.length + 1) jsonStr)
      let j2 := fixDescrAux (j1.length + 1) j1
      match jsonParse j2 with
      | some v => .ok (validateAndFixParsedData v)
      | none => .error .unparseable

/-! ## Lexical similarity scorer

Faithful model of `_extractKeywords`, `_calculateSimilarity`,
`_findMatchedFeatures` and `findSimilarContracts`. -/

/-- Model of `String.prototype.split(/\s+/)`: tokens between maximal
whitespace runs, including the empty token produced by a leading or trailing
separator.  `inSep` records that the scanner is inside a separator run (and
then `acc` is empty). -/
def splitWsGo : Bool → List Char → List Char → List (List Char)
  | _, acc, [] => [acc.reverse]
  | inSep, acc, c :: cs =>
    if isWsChar c then
      if inSep then splitWsGo true [] cs
      else acc.reverse :: splitWsGo true [] cs
    else splitWsGo false (c :: acc) cs

/-- Split on whitespace runs, as the JavaScript `split(/\s+/)`. -/
def splitWsJS (l : List Char) : List (List Char) := splitWsGo false [] l

/-- The raw token list of `_extractKeywords`: lower-case, delete characters
that are neither word characters nor whitespace
(`replace(/[^\w\s]/g, NOTHING)`), split on whitespace. -/
def jsTokens (text : List Char) : List (List Char) :=
  splitWsJS ((text.map Char.toLower).filter (fun c => isWordChar c || isWsChar c))

/-- The words `_extractKeywords` counts: tokens longer than 4 characters. -/
def keywordTokens (text : List Char) : List (List Char) :=
  (jsTokens text).filter (fun w => 4 < w.length)

/-- Build the frequency table in property-insertion order: the first
occurrence of a word appends a fresh entry, later occurrences bump its count
in place. -/
def bumpFreq : List (List Char × Nat) → List Char → List (List Char × Nat)
  | [], w => [(w, 1)]
  | (k, n) :: rest, w => if k = w then (k, n + 1) :: rest else (k, n) :: bumpFreq rest w

/-- Is the key an array-index-like property name?  JavaScript orders such keys
first, ascending, in `Object.entries`. -/
def isArrayIndexKey (w : List Char) : Bool :=
  !w.isEmpty && w.all Char.isDigit && (w == ['0'] || !(w.headD '0' == '0')) &&
    digitsToNat w < 4294967295

/-- Model of `Object.entries` key ordering: array-index-like keys first in
ascending numeric order, then the remaining keys in insertion order. -/
def jsObjectEntries (pairs : List (List Char × Nat)) : List (List Char × Nat) :=
  (pairs.filter (fun p => isArrayIndexKey p.1)).mergeSort
      (fun a b => decide (digitsToNat a.1 ≤ digitsToNat b.1)) ++
    pairs.filter (fun p => !isArrayIndexKey p.1)

/-- Model of `_extractKeywords`: frequency table over the tokens, sorted by
count descending (stable, per the ECMAScript `Array.prototype.sort`
guarantee, which pins down the unique stable result of the comparator
`(a, b) => b[1] - a[1]`), truncated to the top 20, keys only. -/
def extractKeywords (text : List Char) : List (List Char) :=
  let freq := (keywordTokens text).foldl bumpFreq []
  (((jsObjectEntries freq).mergeSort (fun a b => decide (b.2 ≤ a.2))).take 20).map (·.1)

/-- A candidate passed to `findSimilarContracts`: its id and its stored
`textContent`, which in JavaScript may be `undefined`/`null` (modelled as
`none`). -/
structure SimCandidate where
  id : Nat
  textContent : Option (List Char)
deriving DecidableEq

/-- Model of `_calculateSimilarity`: `0` for an absent or empty candidate
text; otherwise the number of keywords occurring as substrings of the
lower-cased candidate text, divided by the keyword count.  (With an empty
keyword list JavaScript produces `NaN`, which fails the later `> 0.3` filter
exactly as the `0` produced here by rational division by zero does.) -/
def calculateSimilarity (keywords : List (List Char)) (text2 : Option (List Char)) : ℚ :=
  match text2 with
  | none => 0
  | some t =>
    if t.isEmpty then 0
    else
      let lower := t.map Char.toLower
      ((keywords.filter (fun k => decide (k <:+: lower))).length : ℚ) / (keywords.length : ℚ)

/-- The fixed feature-tag vocabulary. -/
def featureTags : List (List Char) :=
  ["termination", "payment", "liability", "confidentiality", "indemnification"].map
    String.toList

/-- Filter a tag list down to the tags occurring as substrings of both texts.
When the candidate text is absent, JavaScript throws a `TypeError` at the
first tag that occurs in the target (the conjunction
`text1.includes(f) && text2.includes(f)` short-circuits otherwise); the
thrown error is modelled in `Except`. -/
def findMatchedFeaturesAux (text1 : List Char) (text2 : Option (List Char)) :
    List (List Char) → Except Unit (List (List Char))
  | [] => .ok []
  | f :: fs =>
    if decide (f <:+: text1) then
      match text2 with
      | none => .error ()
      | some t =>
        match findMatchedFeaturesAux text1 text2 fs with
        | .error e => .error e
        | .ok rest => .ok (if decide (f <:+: t) then f :: rest else rest)
    else findMatchedFeaturesAux text1 text2 fs

/-- Model of `_findMatchedFeatures` over the fixed tag vocabulary. -/
def findMatchedFeatures (text1 : List Char) (text2 : Option (List Char)) :
    Except Unit (List (List Char)) :=
  findMatchedFeaturesAux text1 text2 featureTags

/-- One scored entry of the similarity output. -/
structure SimEntry where
  contractId : Nat
  similarity : ℚ
  matchedFeatures : List (List Char)
deriving DecidableEq

/-- Result shape of `findSimilarContracts` (`ok:false` corresponds to the
`catch` branch, whose `fallback` is the empty list). -/
structure SimResult where
  ok : Bool
  data : List SimEntry
deriving DecidableEq

/-- Model of the candidate `.map` body, which evaluates the similarity first
and then the matched features (where a `TypeError` may arise). -/
def scoreCandidate (keywords : List (List Char)) (text1 : List Char) (c : SimCandidate) :
    Except Unit SimEntry :=
  match findMatchedFeatures text1 c.textContent with
  | .error e => .error e
  | .ok fs => .ok ⟨c.id, calculateSimilarity keywords c.textContent, fs⟩

/-- Sequence a list of fallible computations left to right, stopping at the
first error, exactly as a `.map` whose body may throw. -/
def mapExcept (f : α → Except ε β) : List α → Except ε (List β)
  | [] => .ok []
  | a :: as =>
    match f a with
    | .error e => .error e
    | .ok b =>
      match mapExcept f as with
      | .error e => .error e
      | .ok bs => .ok (b :: bs)

/-- Model of `findSimilarContracts`: score every candidate, keep similarity
strictly above `0.3`, sort by similarity descending (stable), truncate to 5.
Any thrown error is caught and reported as `ok := false` with the empty
fallback list. -/
def findSimilarContracts (contractText : List Char) (allContracts : List SimCandidate) :
    SimResult :=
  let keywords := extractKeywords contractText
  match mapExcept (scoreCandidate keywords contractText) allContracts with
  | .error _ => ⟨false, []⟩
  | .ok entries =>
    ⟨true,
      ((entries.filter (fun e => decide ((3 : ℚ) / 10 < e.similarity))).mergeSort
        (fun a b => decide (b.similarity ≤ a.similarity))).take 5⟩

/-! ## Analysis-stage clients (`aiService`)

The outcome of one remote completion call is environment-supplied
(`Except`: either a capability error message or the raw response text); the
clients parse raw text with `parseAIResponse`.  Each client also reports how
many capability calls it made, so that "returns the fallback without
attempting a call" is a statement about the model, not a comment. -/

/-- The three shapes a stage client can return: `{ok: true, data}`,
`{ok: false, error, fallback}`, or — on the disabled path — the bare fallback
object itself, which carries neither an `ok` nor an `error` field. -/
inductive StageReturn (α : Type) where
  | success (data : α) : StageReturn α
  | failure (error : List Char) (fallback : α) : StageReturn α
  | bare (fallback : α) : StageReturn α

/-- Reading `.ok` off a stage return (absent fields read as `undefined`,
which is falsy). -/
def StageReturn.jsOk : StageReturn α → Bool
  | .success _ => true
  | _ => false

/-- Reading `.error` off a stage return (`none` models `undefined`). -/
def StageReturn.jsError : StageReturn α → Option (List Char)
  | .failure e _ => some e
  | _ => none

/-- Intelligence-stage payload, as the orchestrator reads it off the parsed
JSON: each array field is `some` exactly when the corresponding field is a
JSON array (the `Array.isArray` tests), `confidence` is `some` exactly when
numeric.  This field is consumed only by `_calculateOverallConfidence`,
whose FIRST entry — unlike the risk and compliance entries — carries a
`typeof === number` check (composed with the `|| 0` at the call site), so
a non-numeric value behaves exactly like an absent one and both are
modelled as `none`. -/
structure IntelligenceData where
  parties : Option (List Json)
  keyDates : Option (List Json)
  financialTerms : Option (List Json)
  clauses : Option (List Json)
  confidence : Option ℚ
  note : Option (List Char)

/-- Risk-stage payload.  `riskLevel` is stored verbatim and `confidence`
is read only through the truthiness-guarded aggregation — with no numeric
type check in the source — so both stay raw JSON values. -/
structure RiskData where
  riskLevel : Option Json
  risks : Option (List Json)
  overallAssessment : Option Json
  confidence : Option Json

/-- Compliance-stage payload; `complianceScore` and `confidence` stay raw
for the same reason as the risk fields. -/
structure ComplianceData where
  complianceScore : Option Json
  issues : Option (List Json)
  recommendations : Option Json
  confidence : Option Json

/-- Pricing-stage payload. -/
structure PricingData where
  marketPosition : Option Json
  analysis : Option Json
  recommendations : Option Json
  comparableTerms : Option Json
  confidence : Option Json

/-- Field lookup on a JSON object; on duplicate keys `JSON.parse` keeps the
last occurrence. -/
def jGet (j : Json) (key : List Char) : Option Json :=
  match j with
  | .obj fs => ((fs.reverse).find? (fun p => p.1 == key)).map (·.2)
  | _ => none

/-- View a JSON value as an array. -/
def asArr : Json → Option (List Json)
  | .arr xs => some xs
  | _ => none

/-- View a JSON value as a number. -/
def asNum : Json → Option ℚ
  | .num q => some q
  | _ => none

/-- View a JSON value as a string. -/
def asStr : Json → Option (List Char)
  | .str s => some s
  | _ => none

/-- JavaScript truthiness of a JSON value. -/
def jsTruthy : Json → Bool
  | .null => false
  | .bool b => b
  | .num q => !(q == 0)
  | .str s => !s.isEmpty
  | _ => true

/-! ## JavaScript dynamic-value coercion

`_calculateOverallConfidence` guards the risk and compliance confidences
only by `.ok` and truthiness, so any truthy parsed JSON value — a string in
particular — reaches the `c > 0` filter, the `(a, b) => a + b` reduction and
the final division.  The helpers below model the ECMAScript coercions those
operators perform.  Numbers are idealised as exact rationals: the decimal
formatting agrees with JavaScript on integers and on short terminating
decimals, which covers every value these operators receive from parsed
responses in the verified statements; the IEEE-754 rounding of interleaved
non-integer sums and the exponent-notation thresholds of
`Number.prototype.toString` lie outside the rational model and outside
every statement proved below. -/

/-- A JavaScript number: a finite value, a signed infinity, or `NaN`. -/
inductive JsNum where
  | num (q : ℚ) : JsNum
  | inf (pos : Bool) : JsNum
  | nan : JsNum
deriving DecidableEq

/-- A primitive accumulated while folding `+`: a number or a string. -/
inductive JsPrim where
  | n (q : ℚ) : JsPrim
  | s (chars : List Char) : JsPrim
deriving DecidableEq

/-- Decimal digits of a natural number (recursion on fuel). -/
def natToStrAux : Nat → Nat → List Char
  | 0, _ => []
  | fuel + 1, n =>
    if n < 10 then [Char.ofNat (48 + n)]
    else natToStrAux fuel (n / 10) ++ [Char.ofNat (48 + n % 10)]

/-- Decimal representation of a natural number. -/
def natToString (n : Nat) : List Char := natToStrAux (n + 1) n

/-- Multiplicity of `p` in `n` (recursion on fuel). -/
def factorMult (p : Nat) : Nat → Nat → Nat
  | 0, _ => 0
  | fuel + 1, n => if n % p == 0 && n != 0 then factorMult p fuel (n / p) + 1 else 0

/-- `String(number)` on an exact rational, in plain positional notation:
sign, integer digits and — when the expansion terminates — the fractional
digits without trailing zeros.  This is the exact JavaScript output
whenever the denominator has only the prime factors 2 and 5; a
non-terminating expansion (which no statement below reaches) is truncated
at 20 fractional digits. -/
def jsNumToString (q : ℚ) : List Char :=
  let den := q.den
  let k2 := factorMult 2 den den
  let k5 := factorMult 5 den den
  let k := if 2 ^ k2 * 5 ^ k5 == den then max k2 k5 else 20
  let scaled := q.num.natAbs * 10 ^ k / den
  let ds := natToString scaled
  let ds := if ds.length ≤ k then List.replicate (k + 1 - ds.length) '0' ++ ds else ds
  let ip := ds.take (ds.length - k)
  let fp := ((ds.drop (ds.length - k)).reverse.dropWhile (· == '0')).reverse
  let body := if fp.isEmpty then ip else ip ++ '.' :: fp
  if q < 0 then '-' :: body else body

/-- Value of a hexadecimal/octal/binary digit (`99` when not a digit). -/
def digitVal (c : Char) : Nat :=
  if c.isDigit then c.toNat - 48
  else if 97 ≤ c.toNat ∧ c.toNat ≤ 102 then c.toNat - 87
  else if 65 ≤ c.toNat ∧ c.toNat ≤ 70 then c.toNat - 55
  else 99

/-- Value of a base-`b` digit string; `none` on a bad digit or when empty. -/
def baseDigitsVal (b : Nat) (ds : List Char) : Option Nat :=
  if ds.isEmpty || ds.any (fun c => decide (b ≤ digitVal c)) then none
  else some (ds.foldl (fun a c => b * a + digitVal c) 0)

/-- The decimal-literal part of `ToNumber` on strings: `digits [. digits]
[exponent]` or `. digits [exponent]`, consuming the whole input. -/
def decLiteralVal (l : List Char) : Option ℚ :=
  let ip := l.takeWhile Char.isDigit
  let rest := l.drop ip.length
  let fp := match rest with
    | '.' :: r => r.takeWhile Char.isDigit
    | _ => []
  let rest2 := match rest with
    | '.' :: r => r.drop (r.takeWhile Char.isDigit).length
    | _ => rest
  if ip.isEmpty && fp.isEmpty then none
  else
    let mant : ℚ := (digitsToNat ip : ℚ) + (digitsToNat fp : ℚ) / ((10 : ℚ) ^ fp.length)
    match rest2 with
    | [] => some mant
    | e :: r =>
      if e == 'e' || e == 'E' then
        let ds := match r with
          | '+' :: r2 => r2
          | '-' :: r2 => r2
          | _ => r
        let esign : Int := match r with
          | '-' :: _ => -1
          | _ => 1
        if ds.isEmpty || ds.any (fun c => !c.isDigit) then none
        else some (mant * (10 : ℚ) ^ (esign * (digitsToNat ds : Int)))
      else none

/-- The optionally signed tail of a string `ToNumber`: `Infinity` or a
decimal literal. -/
def signedNumTail (t : List Char) : JsNum :=
  let body := match t with
    | '+' :: r => r
    | '-' :: r => r
    | _ => t
  let neg : Bool := match t with
    | '-' :: _ => true
    | _ => false
  if body == "Infinity".toList then .inf (!neg)
  else
    match decLiteralVal body with
    | some q => .num (if neg then -q else q)
    | none => .nan

/-- `ToNumber` on a string: trim whitespace; empty means `0`; an unsigned
binary/octal/hexadecimal literal, or an optionally signed `Infinity` or
decimal literal; anything else is `NaN`. -/
def jsToNumberStr (l : List Char) : JsNum :=
  let t := ((l.dropWhile isWsChar).reverse.dropWhile isWsChar).reverse
  match t with
  | [] => .num 0
  | '0' :: x :: r =>
    if x == 'x' || x == 'X' then
      match baseDigitsVal 16 r with
      | some n => .num n
      | none => .nan
    else if x == 'o' || x == 'O' then
      match baseDigitsVal 8 r with
      | some n => .num n
      | none => .nan
    else if x == 'b' || x == 'B' then
      match baseDigitsVal 2 r with
      | some n => .num n
      | none => .nan
    else signedNumTail t
  | _ => signedNumTail t

/-- Does `ToPrimitive` of the value produce a string?  True for strings
themselves, for arrays (`Array.prototype.toString` joins) and for plain
objects (`[object Object]`). -/
def primIsString : Json → Bool
  | .str _ => true
  | .arr _ => true
  | .obj _ => true
  | _ => false

mutual

/-- `ToString` of a parsed JSON value: `Array.prototype.toString` joins the
elements with commas; plain objects print as `[object Object]`. -/
def primToString : Json → List Char
  | .null => "null".toList
  | .bool b => if b then "true".toList else "false".toList
  | .num q => jsNumToString q
  | .str s => s
  | .arr xs => joinToString xs
  | .obj _ => "[object Object]".toList

/-- Comma-join of array elements; `Array.prototype.join` renders `null`
elements as the empty string. -/
def joinToString : List Json → List Char
  | [] => []
  | [.null] => []
  | [x] => primToString x
  | .null :: x :: xs => ',' :: joinToString (x :: xs)
  | x :: y :: xs => primToString x ++ ',' :: joinToString (y :: xs)

end

/-- `ToNumber` of a non-string primitive. -/
def primToNumber : Json → ℚ
  | .bool b => if b then 1 else 0
  | .num q => q
  | _ => 0

/-- `ToNumber` of a parsed JSON value: strings, arrays and objects go
through their string form. -/
def jsToNumber (j : Json) : JsNum :=
  if primIsString j then jsToNumberStr (primToString j)
  else .num (primToNumber j)

/-- The filter predicate `c > 0`: numeric comparison after `ToNumber`;
`NaN` compares false. -/
def jsGtZero (v : Json) : Bool :=
  match jsToNumber v with
  | .num q => decide (0 < q)
  | .inf pos => pos
  | .nan => false

/-- String view of the fold accumulator. -/
def JsPrim.asString : JsPrim → List Char
  | .n a => jsNumToString a
  | .s str => str

/-- The reduction step `(a, b) => a + b`: when either operand is (or
converts to) a string the result is the concatenation; otherwise the
numeric sum. -/
def jsAdd (acc : JsPrim) (v : Json) : JsPrim :=
  if primIsString v then .s (acc.asString ++ primToString v)
  else
    match acc with
    | .n a => .n (a + primToNumber v)
    | .s sa => .s (sa ++ primToString v)

/-- The final division by the count: the accumulated value goes through
`ToNumber` first, so a concatenated string can yield any number — or
`NaN`. -/
def jsDivByLen (sum : JsPrim) (len : Nat) : JsNum :=
  match sum with
  | .n a => .num (a / (len : ℚ))
  | .s str =>
    match jsToNumberStr str with
    | .num a => .num (a / (len : ℚ))
    | .inf pos => .inf pos
    | .nan => .nan

/-- The `x ? x : 0` truthiness guard on an optional stage confidence. -/
def truthyOrZero : Option Json → Json
  | some v => if jsTruthy v then v else .num 0
  | none => .num 0

/-- The rational a raw confidence denotes when it is a JSON number, `0`
otherwise (only quoted over absent-or-numeric confidences in the theorems
below). -/
def numConfOf : Option Json → ℚ
  | some (.num q) => q
  | _ => 0

/-- The numeric risk-stage confidence entering the aggregation. -/
def riskConfVal : StageReturn RiskData → ℚ
  | .success rd => numConfOf rd.confidence
  | _ => 0

/-- The numeric compliance-stage confidence entering the aggregation. -/
def compConfVal : StageReturn ComplianceData → ℚ
  | .success cd => numConfOf cd.confidence
  | _ => 0

/-- Read the intelligence fields off a parsed response. -/
def jsonToIntelligence (j : Json) : IntelligenceData where
  parties := jGet j "parties".toList >>= asArr
  keyDates := jGet j "keyDates".toList >>= asArr
  financialTerms := jGet j "financialTerms".toList >>= asArr
  clauses := jGet j "clauses".toList >>= asArr
  confidence := jGet j "confidence".toList >>= asNum
  note := jGet j "note".toList >>= asStr

/-- Read the risk fields off a parsed response; `confidence` is kept raw
(any parsed JSON value, not only numbers, reaches the aggregation). -/
def jsonToRisk (j : Json) : RiskData where
  riskLevel := jGet j "riskLevel".toList
  risks := jGet j "risks".toList >>= asArr
  overallAssessment := jGet j "overallAssessment".toList
  confidence := jGet j "confidence".toList

/-- Read the compliance fields off a parsed response; `confidence` is kept
raw. -/
def jsonToCompliance (j : Json) : ComplianceData where
  complianceScore := jGet j "complianceScore".toList
  issues := jGet j "issues".toList >>= asArr
  recommendations := jGet j "recommendations".toList
  confidence := jGet j "confidence".toList

/-- Read the pricing fields off a parsed response. -/
def jsonToPricing (j : Json) : PricingData where
  marketPosition := jGet j "marketPosition".toList
  analysis := jGet j "analysis".toList
  recommendations := jGet j "recommendations".toList
  comparableTerms := jGet j "comparableTerms".toList
  confidence := jGet j "confidence".toList

/-- Static fallback of `_fallbackExtraction`. -/
def fallbackExtraction : IntelligenceData where
  parties := some []
  keyDates := some []
  financialTerms := some []
  clauses := some []
  confidence := some 0
  note := some "AI service unavailable - manual review required".toList

/-- Static fallback of `_fallbackRiskAssessment`. -/
def fallbackRiskAssessment : RiskData where
  riskLevel := some (.str "medium".toList)
  risks := some []
  overallAssessment := some (.str "AI service unavailable - manual review recommended".toList)
  confidence := some (.num 0)

/-- Static fallback of `_fallbackCompliance`. -/
def fallbackCompliance : ComplianceData where
  complianceScore := some (.num 50)
  issues := some []
  recommendations := some (.arr [.str "Manual compliance review recommended".toList])
  confidence := some (.num 0)

/-- Static fallback of `_fallbackPricingAnalysis`. -/
def fallbackPricingAnalysis : PricingData where
  marketPosition := some (.str "average".toList)
  analysis := some (.str "AI service unavailable".toList)
  recommendations := some (.arr [.str "Manual pricing review recommended".toList])
  comparableTerms := some (.arr [])
  confidence := some (.num 0)

/-- Error message raised when the tolerant parser fails (the engine-specific
tail of the second message is abstracted away; only its non-emptiness ever
matters). -/
def invalidFormatMsg : ParseError → List Char
  | .noStructureFound => "Invalid AI response format: No JSON found in response".toList
  | .unparseable =>
    "Invalid AI response format: Could not parse AI response as valid JSON".toList

/-- Generic stage-client skeleton shared by all four stages: disabled
capability returns the bare static fallback with zero calls; otherwise one
call is made, a capability error or parser failure yields `ok:false` with the
fallback, and a parsed response yields `ok:true`. -/
def runStage (convert : Json → α) (fallback : α) (aiEnabled : Bool)
    (cap : Except (List Char) (List Char)) : StageReturn α × Nat :=
  if aiEnabled = false then (.bare fallback, 0)
  else
    match cap with
    | .error msg => (.failure msg fallback, 1)
    | .ok raw =>
      match parseAIResponse raw with
      | .ok j => (.success (convert j), 1)
      | .error e => (.failure (invalidFormatMsg e) fallback, 1)

/-- Model of `extractContractIntelligence`. -/
def extractContractIntelligence (aiEnabled : Bool) (cap : Except (List Char) (List Char)) :
    StageReturn IntelligenceData × Nat :=
  runStage jsonToIntelligence fallbackExtraction aiEnabled cap

/-- Model of `assessRisks`. -/
def assessRisks (aiEnabled : Bool) (cap : Except (List Char) (List Char)) :
    StageReturn RiskData × Nat :=
  runStage jsonToRisk fallbackRiskAssessment aiEnabled cap

/-- Model of `checkCompliance`. -/
def checkCompliance (aiEnabled : Bool) (cap : Except (List Char) (List Char)) :
    StageReturn ComplianceData × Nat :=
  runStage jsonToCompliance fallbackCompliance aiEnabled cap

/-- Model of `analyzePricing`. -/
def analyzePricing (aiEnabled : Bool) (cap : Except (List Char) (List Char)) :
    StageReturn PricingData × Nat :=
  runStage jsonToPricing fallbackPricingAnalysis aiEnabled cap

/-! ## The contract record and the pipeline orchestrator (`contractService`) -/

/-- Lifecycle status of a contract record. -/
inductive Status where
  | pending : Status
  | processing : Status
  | analyzed : Status
  | failed : Status
deriving DecidableEq

/-- The stored pricing sub-document. -/
structure PricingAnalysis where
  marketPosition : Option Json
  recommendations : Json
  comparableTerms : Json

/-- The contract record, restricted to the fields the analysis pipeline
reads or writes (source/identity fields such as `fileName` or `filePath`
never influence the pipeline and are elided). -/
structure ContractRecord where
  title : List Char
  textContent : List Char
  status : Status
  parties : List Json
  keyDates : List Json
  financialTerms : List Json
  clauses : List Json
  riskLevel : Option Json
  risks : List Json
  complianceScore : Option Json
  complianceIssues : List Json
  pricingAnalysis : Option PricingAnalysis
  similarContracts : List SimEntry
  aiAnalysisDate : Option Int
  aiConfidenceScore : Option JsNum
  aiProcessingTime : Option Int
  lastError : Option (List Char)
  errorCount : Nat

/-- A record as `createContract` persists it: schema defaults for every
analysis field, `status = pending`, `errorCount = 0`. -/
def freshRecord (title text : List Char) : ContractRecord where
  title := title
  textContent := text
  status := .pending
  parties := []
  keyDates := []
  financialTerms := []
  clauses := []
  riskLevel := none
  risks := []
  complianceScore := none
  complianceIssues := []
  pricingAnalysis := none
  similarContracts := []
  aiAnalysisDate := none
  aiConfidenceScore := none
  aiProcessingTime := none
  lastError := none
  errorCount := 0

/-- Overwrite an extracted-intelligence array field only when the stage
produced a non-empty array (`Array.isArray(x) && x.length > 0`). -/
def setIfNonEmpty (current : List Json) : Option (List Json) → List Json
  | some (x :: xs) => x :: xs
  | _ => current

/-- The merge step of the orchestrator (source lines that `set` each of the
four arrays under the non-empty guard). -/
def mergeIntelligence (c : ContractRecord) (d : IntelligenceData) : ContractRecord :=
  { c with
    parties := setIfNonEmpty c.parties d.parties
    keyDates := setIfNonEmpty c.keyDates d.keyDates
    financialTerms := setIfNonEmpty c.financialTerms d.financialTerms
    clauses := setIfNonEmpty c.clauses d.clauses }

/-- Model of `_handleAnalysisError`: status `failed`, `lastError` takes the
passed message verbatim (`none` when the caller passed `undefined`),
`errorCount` incremented, record persisted. -/
def handleAnalysisError (c : ContractRecord) (msg : Option (List Char)) : ContractRecord :=
  { c with status := .failed, lastError := msg, errorCount := c.errorCount + 1 }

/-- Model of `_calculateOverallConfidence`.  The first entry is guarded by
`typeof === number` (composed with `intelligence.confidence || 0` at the
call site, the parsed numeric value — or 0 — survives), so it is always a
number and is passed here as a rational.  The risk and compliance entries
are guarded only by `.ok` and truthiness, so any truthy parsed JSON value
enters the `c > 0` filter, the `+` reduction and the final division with
full JavaScript coercion; the result is a JavaScript number that need not
be finite. -/
def calculateOverallConfidence (intelligenceConf : ℚ) (rr : StageReturn RiskData)
    (cr : StageReturn ComplianceData) : JsNum :=
  let confidences : List Json :=
    [.num intelligenceConf,
      (match rr with
        | .success d => truthyOrZero d.confidence
        | _ => .num 0),
      (match cr with
        | .success d => truthyOrZero d.confidence
        | _ => .num 0)]
  let valid := confidences.filter jsGtZero
  if valid.isEmpty then .num 0
  else jsDivByLen (valid.foldl jsAdd (.n 0)) valid.length

/-- Step 5 of the run (`if (riskResult.ok) ...`): on success set `riskLevel`
verbatim and `risks` with the non-array guard; otherwise leave the record
untouched. -/
def applyRisk (c : ContractRecord) (rr : StageReturn RiskData) : ContractRecord :=
  match rr with
  | .success d => { c with riskLevel := d.riskLevel, risks := d.risks.getD [] }
  | _ => c

/-- Step 6 (`if (complianceResult.ok) ...`): same merge policy for the
compliance fields. -/
def applyCompliance (c : ContractRecord) (cr : StageReturn ComplianceData) : ContractRecord :=
  match cr with
  | .success d =>
    { c with complianceScore := d.complianceScore, complianceIssues := d.issues.getD [] }
  | _ => c

/-- The `x || []` guard applied to the stored pricing arrays. -/
def orEmptyArr (o : Option Json) : Json :=
  match o with
  | some v => if jsTruthy v then v else .arr []
  | none => .arr []

/-- Step 7: pricing runs only when `financialTerms` is non-empty, and on
success stores the pricing sub-document. -/
def applyPricing (c : ContractRecord) (pr : StageReturn PricingData) : ContractRecord :=
  if c.financialTerms.isEmpty then c
  else
    match pr with
    | .success d =>
      let pa : PricingAnalysis :=
        ⟨d.marketPosition, orEmptyArr d.recommendations, orEmptyArr d.comparableTerms⟩
      { c with pricingAnalysis := some pa }
    | _ => c

/-- Step 8: similarity scoring against the candidate pool; the result
replaces `similarContracts` only when `ok`. -/
def applySimilarity (c : ContractRecord) (cands : List SimCandidate) : ContractRecord :=
  let sres := findSimilarContracts c.textContent cands
  if sres.ok then { c with similarContracts := sres.data } else c

/-- Environment of one analysis run: configuration, the outcome of each
potential capability call, the candidate pool the similarity step queries,
and the two wall-clock readings. -/
structure AnalysisEnv where
  aiEnabled : Bool
  intelligenceCap : Except (List Char) (List Char)
  riskCap : Except (List Char) (List Char)
  complianceCap : Except (List Char) (List Char)
  pricingCap : Except (List Char) (List Char)
  otherContracts : List SimCandidate
  startTime : Int
  endTime : Int

/-- Outcome reported by `analyzeContract` (`{ok, error?}`; the returned
record is the second component of the pair). -/
structure AnalyzeOutcome where
  ok : Bool
  error : Option (List Char)

/-- Step 9-10: the finalisation writes of a successful run. -/
def finalizeRecord (c : ContractRecord) (conf : JsNum) (env : AnalysisEnv) : ContractRecord :=
  { c with
    aiAnalysisDate := some env.endTime
    aiProcessingTime := some (env.endTime - env.startTime)
    aiConfidenceScore := some conf
    status := .analyzed
    errorCount := 0
    lastError := none }

/-- Model of `analyzeContract` on a record that exists: the strictly ordered
pipeline.  An empty `textContent` returns early without touching the record;
a non-`ok` intelligence result takes the failure path; otherwise the stages
run in order with their per-stage merge guards, and the run finalises with
status `analyzed`, `errorCount = 0` and `lastError` cleared. -/
def analyzeContract (env : AnalysisEnv) (c0 : ContractRecord) :
    AnalyzeOutcome × ContractRecord :=
  if c0.textContent.isEmpty then
    (⟨false, some "Contract has no text content".toList⟩, c0)
  else
    let c1 : ContractRecord := { c0 with status := .processing }
    let ir := (extractContractIntelligence env.aiEnabled env.intelligenceCap).1
    match ir with
    | .success intelligence =>
      let c2 := mergeIntelligence c1 intelligence
      let rr := (assessRisks env.aiEnabled env.riskCap).1
      let c3 := applyRisk c2 rr
      let cr := (checkCompliance env.aiEnabled env.complianceCap).1
      let c4 := applyCompliance c3 cr
      let c5 := applyPricing c4 (analyzePricing env.aiEnabled env.pricingCap).1
      let c6 := applySimilarity c5 env.otherContracts
      let conf := calculateOverallConfidence (intelligence.confidence.getD 0) rr cr
      (⟨true, none⟩, finalizeRecord c6 conf env)
    | ir =>
      let cf := handleAnalysisError c1 ir.jsError
      (⟨false, ir.jsError⟩, cf)

/-- Reachable persisted record states: a fresh upload, the transient
`processing` snapshot saved at the start of a run on non-empty text, and the
final state of any analysis run. -/
inductive Reachable : ContractRecord → Prop
  | upload (title text : List Char) : Reachable (freshRecord title text)
  | processing {c : ContractRecord} (h : Reachable c) (hne : c.textContent.isEmpty = false) :
      Reachable { c with status := .processing }
  | analyze (env : AnalysisEnv) {c : ContractRecord} (h : Reachable c) :
      Reachable (analyzeContract env c).2

/-! ## Deadline window and dashboard statistics

These operations read only the key-date, status, risk and compliance fields
of stored records, so they are modelled over a view of the record with typed
key dates (dates are epoch milliseconds, as compared by the source). -/

namespace Deadlines

/-- A stored key date. -/
structure KeyDate where
  dateType : List Char
  date : Int
  description : List Char
deriving DecidableEq

/-- The stored-record view the statistics code reads. -/
structure Contract where
  id : Nat
  title : List Char
  status : Status
  riskLevel : Option (List Char)
  complianceScore : Option ℚ
  keyDates : List KeyDate

/-- Thirty days in milliseconds (`30 * 24 * 60 * 60 * 1000`). -/
def thirtyDaysMs : Int := 30 * 24 * 60 * 60 * 1000

/-- The deadline window test `kd.date >= now && kd.date <= thirtyDaysFromNow`
shared by `_getUpcomingDeadlines` and `_checkDeadlinesAndAlert`. -/
def inWindow (now : Int) (kd : KeyDate) : Bool :=
  decide (now ≤ kd.date) && decide (kd.date ≤ now + thirtyDaysMs)

/-- One entry of the upcoming-deadline list. -/
structure Deadline where
  contractId : Nat
  contractTitle : List Char
  dateType : List Char
  date : Int
  description : List Char
deriving DecidableEq

/-- Model of `_getUpcomingDeadlines`: the store query returns the contracts
having at least one key date inside the window, each matching key date of
those contracts is collected, and the list is sorted by date ascending
(stable). -/
def getUpcomingDeadlines (contracts : List Contract) (now : Int) : List Deadline :=
  let matching := contracts.filter (fun c => c.keyDates.any (inWindow now))
  let deadlines := matching.flatMap (fun c =>
    (c.keyDates.filter (inWindow now)).map (fun kd =>
      ⟨c.id, c.title, kd.dateType, kd.date, kd.description⟩))
  deadlines.mergeSort (fun a b => decide (a.date ≤ b.date))

/-- Model of the filter inside `_checkDeadlinesAndAlert` (one contract's
upcoming key dates; the alert fires exactly when this list is non-empty). -/
def upcomingOf (c : Contract) (now : Int) : List KeyDate :=
  c.keyDates.filter (inWindow now)

/-- The dashboard statistics payload. -/
structure DashboardStats where
  totalContracts : Nat
  analyzedContracts : Nat
  highRiskContracts : Nat
  avgComplianceScore : ℚ
  upcomingDeadlines : Nat

/-- Model of `getDashboardStats` over the stored corpus. -/
def getDashboardStats (contracts : List Contract) (now : Int) : DashboardStats where
  totalContracts := contracts.length
  analyzedContracts := (contracts.filter (fun c => c.status == .analyzed)).length
  highRiskContracts := (contracts.filter (fun c =>
    c.riskLevel == some "high".toList || c.riskLevel == some "critical".toList)).length
  avgComplianceScore :=
    let scored := contracts.filterMap (·.complianceScore)
    if scored.isEmpty then 0 else scored.foldl (· + ·) 0 / (scored.length : ℚ)
  upcomingDeadlines := (getUpcomingDeadlines contracts now).length

end Deadlines

/-! ## Concrete fixtures used by witnesses and counterexamples -/

/-- The spec test input with single-quoted keys and values. -/
def singleQuotedInput : List Char :=
  "\x7b\x27riskLevel\x27: \x27high\x27, \x27risks\x27: []\x7d".toList

/-- A target text whose keyword set has exactly 20 elements. -/
def simTarget : List Char :=
  ("aaaaa bbbbb ccccc ddddd eeeee fffff ggggg hhhhh iiiii jjjjj " ++
    "kkkkk lllll mmmmm nnnnn ooooo ppppp qqqqq rrrrr sssss ttttt").toList

/-- A candidate matching exactly 6 of the 20 keywords (similarity 0.3). -/
def simCand6 : SimCandidate := ⟨1, some "aaaaa bbbbb ccccc ddddd eeeee fffff".toList⟩

/-- A candidate matching exactly 7 of the 20 keywords (similarity 0.35). -/
def simCand7 : SimCandidate :=
  ⟨2, some "aaaaa bbbbb ccccc ddddd eeeee fffff ggggg".toList⟩

/-- An environment with the LLM capability unavailable (no credential). -/
def envUnavailable : AnalysisEnv :=
  ⟨false, .error "x".toList, .error "x".toList, .error "x".toList, .error "x".toList,
    [], 0, 5⟩

/-- An environment whose (enabled) intelligence call fails. -/
def envFailing : AnalysisEnv :=
  ⟨true, .error "Request failed".toList, .error "x".toList, .error "x".toList,
    .error "x".toList, [], 0, 5⟩

/-- A raw model response carrying only a confidence value. -/
def rawConfOnly : List Char := "\x7b\"confidence\": 0.9\x7d".toList

/-- An environment whose intelligence call succeeds (risk and compliance
fail, which does not prevent a successful run). -/
def envSucceeding : AnalysisEnv :=
  ⟨true, .ok rawConfOnly, .error "x".toList, .error "x".toList, .error "x".toList,
    [], 0, 7⟩

/-- A raw intelligence response with one party and an empty key-date list. -/
def rawParties : List Char :=
  ("\x7b\"parties\": [\x7b\"name\": \"Acme\", \"role\": \"provider\"\x7d], " ++
    "\"keyDates\": [], \"confidence\": 0.9\x7d").toList

/-- Environment for the merge scenario: intelligence succeeds with
`rawParties`, the risk stage fails. -/
def envMerge : AnalysisEnv :=
  ⟨true, .ok rawParties, .error "risk call failed".toList, .error "x".toList,
    .error "x".toList, [], 0, 9⟩

/-- A record that already carries risk data from an earlier run. -/
def recPrior : ContractRecord :=
  { freshRecord "t".toList "contract text".toList with
      riskLevel := some (.str "low".toList)
      risks := [.str "r1".toList] }

/-- Raw stage responses realising the spec confidence example
(0.9 intelligence, 0 risk, 0.6 compliance). -/
def rawRiskConf0 : List Char :=
  "\x7b\"riskLevel\": \"low\", \"risks\": [], \"confidence\": 0\x7d".toList

/-- Compliance response with confidence 0.6. -/
def rawCompConf06 : List Char :=
  "\x7b\"complianceScore\": 80, \"issues\": [], \"confidence\": 0.6\x7d".toList

/-- Environment realising the spec confidence example. -/
def envConfExample : AnalysisEnv :=
  ⟨true, .ok rawConfOnly, .ok rawRiskConf0, .ok rawCompConf06, .error "x".toList,
    [], 0, 4⟩

/-- A compliance response whose score is out of range. -/
def rawCompScore150 : List Char :=
  "\x7b\"complianceScore\": 150, \"issues\": [], \"confidence\": 0.5\x7d".toList

/-- Environment whose compliance stage reports the out-of-range score 150. -/
def envScore150 : AnalysisEnv :=
  ⟨true, .ok rawConfOnly, .error "x".toList, .ok rawCompScore150, .error "x".toList,
    [], 0, 4⟩

/-- A short text all of whose tokens have at most 4 characters. -/
def shortTokenText : List Char := "a bb ccc dddd".toList

/-! ## Theorems -/

/-! Projection lemmas: which record fields each pipeline step leaves
untouched.  These mirror the frame of each source block. -/

/-- Risk merge leaves `parties` untouched. -/
@[simp] theorem applyRisk_parties (c : ContractRecord) (rr : StageReturn RiskData) :
    (applyRisk c rr).parties = c.parties := by cases rr <;> rfl

/-- Risk merge leaves `keyDates` untouched. -/
@[simp] theorem applyRisk_keyDates (c : ContractRecord) (rr : StageReturn RiskData) :
    (applyRisk c rr).keyDates = c.keyDates := by cases rr <;> rfl

/-- Risk merge leaves `financialTerms` untouched. -/
@[simp] theorem applyRisk_financialTerms (c : ContractRecord) (rr : StageReturn RiskData) :
    (applyRisk c rr).financialTerms = c.financialTerms := by cases rr <;> rfl

/-- Risk merge leaves `clauses` untouched. -/
@[simp] theorem applyRisk_clauses (c : ContractRecord) (rr : StageReturn RiskData) :
    (applyRisk c rr).clauses = c.clauses := by cases rr <;> rfl

/-- Risk merge leaves `status` untouched. -/
@[simp] theorem applyRisk_status (c : ContractRecord) (rr : StageReturn RiskData) :
    (applyRisk c rr).status = c.status := by cases rr <;> rfl

/-- Risk merge leaves `complianceScore` untouched. -/
@[simp] theorem applyRisk_complianceScore (c : ContractRecord) (rr : StageReturn RiskData) :
    (applyRisk c rr).complianceScore = c.complianceScore := by cases rr <;> rfl

/-- Risk merge leaves `textContent` untouched. -/
@[simp] theorem applyRisk_textContent (c : ContractRecord) (rr : StageReturn RiskData) :
    (applyRisk c rr).textContent = c.textContent := by cases rr <;> rfl

/-- A non-`ok` risk result leaves the whole record untouched. -/
theorem applyRisk_not_ok {rr : StageReturn RiskData} (h : rr.jsOk = false)
    (c : ContractRecord) : applyRisk c rr = c := by
  cases rr with
  | success d => simp [StageReturn.jsOk] at h
  | failure e fb => rfl
  | bare fb => rfl

/-- Compliance merge leaves `parties` untouched. -/
@[simp] theorem applyCompliance_parties (c : ContractRecord) (cr : StageReturn ComplianceData) :
    (applyCompliance c cr).parties = c.parties := by cases cr <;> rfl

/-- Compliance merge leaves `keyDates` untouched. -/
@[simp] theorem applyCompliance_keyDates (c : ContractRecord)
    (cr : StageReturn ComplianceData) :
    (applyCompliance c cr).keyDates = c.keyDates := by cases cr <;> rfl

/-- Compliance merge leaves `financialTerms` untouched. -/
@[simp] theorem applyCompliance_financialTerms (c : ContractRecord)
    (cr : StageReturn ComplianceData) :
    (applyCompliance c cr).financialTerms = c.financialTerms := by cases cr <;> rfl

/-- Compliance merge leaves `clauses` untouched. -/
@[simp] theorem applyCompliance_clauses (c : ContractRecord)
    (cr : StageReturn ComplianceData) :
    (applyCompliance c cr).clauses = c.clauses := by cases cr <;> rfl

/-- Compliance merge leaves `riskLevel` untouched. -/
@[simp] theorem applyCompliance_riskLevel (c : ContractRecord)
    (cr : StageReturn ComplianceData) :
    (applyCompliance c cr).riskLevel = c.riskLevel := by cases cr <;> rfl

/-- Compliance merge leaves `risks` untouched. -/
@[simp] theorem applyCompliance_risks (c : ContractRecord) (cr : StageReturn ComplianceData) :
    (applyCompliance c cr).risks = c.risks := by cases cr <;> rfl

/-- Compliance merge leaves `status` untouched. -/
@[simp] theorem applyCompliance_status (c : ContractRecord) (cr : StageReturn ComplianceData) :
    (applyCompliance c cr).status = c.status := by cases cr <;> rfl

/-- Compliance merge leaves `textContent` untouched. -/
@[simp] theorem applyCompliance_textContent (c : ContractRecord)
    (cr : StageReturn ComplianceData) :
    (applyCompliance c cr).textContent = c.textContent := by cases cr <;> rfl

/-- A successful compliance stage stores its score verbatim. -/
theorem applyCompliance_success (c : ContractRecord) (d : ComplianceData) :
    (applyCompliance c (.success d)).complianceScore = d.complianceScore := rfl

/-- A non-`ok` compliance result leaves the whole record untouched. -/
theorem applyCompliance_not_ok {cr : StageReturn ComplianceData} (h : cr.jsOk = false)
    (c : ContractRecord) : applyCompliance c cr = c := by
  cases cr with
  | success d => simp [StageReturn.jsOk] at h
  | failure e fb => rfl
  | bare fb => rfl

/-- Pricing merge leaves `parties` untouched. -/
@[simp] theorem applyPricing_parties (c : ContractRecord) (pr : StageReturn PricingData) :
    (applyPricing c pr).parties = c.parties := by
  unfold applyPricing; repeat' split
  all_goals rfl

/-- Pricing merge leaves `keyDates` untouched. -/
@[simp] theorem applyPricing_keyDates (c : ContractRecord) (pr : StageReturn PricingData) :
    (applyPricing c pr).keyDates = c.keyDates := by
  unfold applyPricing; repeat' split
  all_goals rfl

/-- Pricing merge leaves `financialTerms` untouched. -/
@[simp] theorem applyPricing_financialTerms (c : ContractRecord)
    (pr : StageReturn PricingData) :
    (applyPricing c pr).financialTerms = c.financialTerms := by
  unfold applyPricing; repeat' split
  all_goals rfl

/-- Pricing merge leaves `clauses` untouched. -/
@[simp] theorem applyPricing_clauses (c : ContractRecord) (pr : StageReturn PricingData) :
    (applyPricing c pr).clauses = c.clauses := by
  unfold applyPricing; repeat' split
  all_goals rfl

/-- Pricing merge leaves `riskLevel` untouched. -/
@[simp] theorem applyPricing_riskLevel (c : ContractRecord) (pr : StageReturn PricingData) :
    (applyPricing c pr).riskLevel = c.riskLevel := by
  unfold applyPricing; repeat' split
  all_goals rfl

/-- Pricing merge leaves `risks` untouched. -/
@[simp] theorem applyPricing_risks (c : ContractRecord) (pr : StageReturn PricingData) :
    (applyPricing c pr).risks = c.risks := by
  unfold applyPricing; repeat' split
  all_goals rfl

/-- Pricing merge leaves `complianceScore` untouched. -/
@[simp] theorem applyPricing_complianceScore (c : ContractRecord)
    (pr : StageReturn PricingData) :
    (applyPricing c pr).complianceScore = c.complianceScore := by
  unfold applyPricing; repeat' split
  all_goals rfl

/-- Pricing merge leaves `status` untouched. -/
@[simp] theorem applyPricing_status (c : ContractRecord) (pr : StageReturn PricingData) :
    (applyPricing c pr).status = c.status := by
  unfold applyPricing; repeat' split
  all_goals rfl

/-- Pricing merge leaves `textContent` untouched. -/
@[simp] theorem applyPricing_textContent (c : ContractRecord) (pr : StageReturn PricingData) :
    (applyPricing c pr).textContent = c.textContent := by
  unfold applyPricing; repeat' split
  all_goals rfl

/-- Similarity scoring leaves `parties` untouched. -/
@[simp] theorem applySimilarity_parties (c : ContractRecord) (cands : List SimCandidate) :
    (applySimilarity c cands).parties = c.parties := by
  cases h : (findSimilarContracts c.textContent cands).ok <;> simp [applySimilarity, h]

/-- Similarity scoring leaves `keyDates` untouched. -/
@[simp] theorem applySimilarity_keyDates (c : ContractRecord) (cands : List SimCandidate) :
    (applySimilarity c cands).keyDates = c.keyDates := by
  cases h : (findSimilarContracts c.textContent cands).ok <;> simp [applySimilarity, h]

/-- Similarity scoring leaves `financialTerms` untouched. -/
@[simp] theorem applySimilarity_financialTerms (c : ContractRecord)
    (cands : List SimCandidate) :
    (applySimilarity c cands).financialTerms = c.financialTerms := by
  cases h : (findSimilarContracts c.textContent cands).ok <;> simp [applySimilarity, h]

/-- Similarity scoring leaves `clauses` untouched. -/
@[simp] theorem applySimilarity_clauses (c : ContractRecord) (cands : List SimCandidate) :
    (applySimilarity c cands).clauses = c.clauses := by
  cases h : (findSimilarContracts c.textContent cands).ok <;> simp [applySimilarity, h]

/-- Similarity scoring leaves `riskLevel` untouched. -/
@[simp] theorem applySimilarity_riskLevel (c : ContractRecord) (cands : List SimCandidate) :
    (applySimilarity c cands).riskLevel = c.riskLevel := by
  cases h : (findSimilarContracts c.textContent cands).ok <;> simp [applySimilarity, h]

/-- Similarity scoring leaves `risks` untouched. -/
@[simp] theorem applySimilarity_risks (c : ContractRecord) (cands : List SimCandidate) :
    (applySimilarity c cands).risks = c.risks := by
  cases h : (findSimilarContracts c.textContent cands).ok <;> simp [applySimilarity, h]

/-- Similarity scoring leaves `complianceScore` untouched. -/
@[simp] theorem applySimilarity_complianceScore (c : ContractRecord)
    (cands : List SimCandidate) :
    (applySimilarity c cands).complianceScore = c.complianceScore := by
  cases h : (findSimilarContracts c.textContent cands).ok <;> simp [applySimilarity, h]

/-- Similarity scoring leaves `status` untouched. -/
@[simp] theorem applySimilarity_status (c : ContractRecord) (cands : List SimCandidate) :
    (applySimilarity c cands).status = c.status := by
  cases h : (findSimilarContracts c.textContent cands).ok <;> simp [applySimilarity, h]

/-- Finalisation: the fields it sets and the fields it keeps. -/
@[simp] theorem finalizeRecord_fields (c : ContractRecord) (conf : JsNum) (env : AnalysisEnv) :
    (finalizeRecord c conf env).status = .analyzed
    ∧ (finalizeRecord c conf env).errorCount = 0
    ∧ (finalizeRecord c conf env).lastError = none
    ∧ (finalizeRecord c conf env).aiConfidenceScore = some conf
    ∧ (finalizeRecord c conf env).parties = c.parties
    ∧ (finalizeRecord c conf env).keyDates = c.keyDates
    ∧ (finalizeRecord c conf env).financialTerms = c.financialTerms
    ∧ (finalizeRecord c conf env).clauses = c.clauses
    ∧ (finalizeRecord c conf env).riskLevel = c.riskLevel
    ∧ (finalizeRecord c conf env).risks = c.risks
    ∧ (finalizeRecord c conf env).complianceScore = c.complianceScore := by
  refine ⟨rfl, rfl, rfl, rfl, rfl, rfl, rfl, rfl, rfl, rfl, rfl⟩

/-- Merge step: the four array fields and the untouched frame. -/
@[simp] theorem mergeIntelligence_fields (c : ContractRecord) (d : IntelligenceData) :
    (mergeIntelligence c d).parties = setIfNonEmpty c.parties d.parties
    ∧ (mergeIntelligence c d).keyDates = setIfNonEmpty c.keyDates d.keyDates
    ∧ (mergeIntelligence c d).financialTerms = setIfNonEmpty c.financialTerms d.financialTerms
    ∧ (mergeIntelligence c d).clauses = setIfNonEmpty c.clauses d.clauses
    ∧ (mergeIntelligence c d).riskLevel = c.riskLevel
    ∧ (mergeIntelligence c d).risks = c.risks
    ∧ (mergeIntelligence c d).complianceScore = c.complianceScore
    ∧ (mergeIntelligence c d).status = c.status
    ∧ (mergeIntelligence c d).textContent = c.textContent := by
  refine ⟨rfl, rfl, rfl, rfl, rfl, rfl, rfl, rfl, rfl⟩

/-- Folding addition from an accumulator equals the accumulator plus the sum. -/
theorem foldl_add_eq_add_sum (l : List ℚ) : ∀ a : ℚ, l.foldl (· + ·) a = a + l.sum := by
  induction l with
  | nil => intro a; simp
  | cons x xs ih => intro a; simp [ih, add_assoc]

/-- Sum bound: if every element is at most 1, the sum is at most the length. -/
theorem sum_le_length_of_le_one (l : List ℚ) (h : ∀ x ∈ l, x ≤ 1) :
    l.sum ≤ (l.length : ℚ) := by
  induction l with
  | nil => simp
  | cons x xs ih =>
    simp only [List.sum_cons, List.length_cons]
    have hx : x ≤ 1 := h x (by simp)
    have hxs : xs.sum ≤ (xs.length : ℚ) := ih fun y hy => h y (by simp [hy])
    push_cast
    linarith

/-- Sum bound: a list of nonnegative rationals has nonnegative sum. -/
theorem sum_nonneg_of_nonneg (l : List ℚ) (h : ∀ x ∈ l, 0 ≤ x) : 0 ≤ l.sum := by
  induction l with
  | nil => simp
  | cons x xs ih =>
    simp only [List.sum_cons]
    have hx : 0 ≤ x := h x (by simp)
    have hxs : 0 ≤ xs.sum := ih fun y hy => h y (by simp [hy])
    linarith

/-- Adding a JSON number to a numeric accumulator is rational addition. -/
theorem jsAdd_n_num (a q : ℚ) : jsAdd (.n a) (.num q) = .n (a + q) := rfl

/-- Folding the JavaScript `+` over numeric entries from a numeric
accumulator stays numeric and sums. -/
theorem foldl_jsAdd_map_num (qs : List ℚ) : ∀ a : ℚ,
    (qs.map Json.num).foldl jsAdd (.n a) = .n (a + qs.sum) := by
  induction qs with
  | nil => intro a; simp
  | cons q qs ih =>
    intro a
    simp only [List.map_cons, List.foldl_cons, jsAdd_n_num, ih, List.sum_cons]
    rw [add_assoc]

/-- On a JSON number the `c > 0` filter is the rational comparison. -/
theorem jsGtZero_num (q : ℚ) : jsGtZero (.num q) = decide (0 < q) := rfl

/-- Filtering numeric entries commutes with wrapping them as JSON. -/
theorem filter_jsGtZero_map_num (qs : List ℚ) :
    (qs.map Json.num).filter jsGtZero =
      (qs.filter (fun x => decide (0 < x))).map Json.num := by
  induction qs with
  | nil => rfl
  | cons q qs ih =>
    simp only [List.map_cons, List.filter_cons, jsGtZero_num]
    by_cases h : 0 < q
    · simp [h, ih]
    · simp [h, ih]

/-- The truthiness-guarded entry of an absent-or-numeric confidence is the
plain numeric value. -/
theorem truthyOrZero_numval (o : Option Json)
    (h : o = none ∨ ∃ q : ℚ, o = some (.num q)) :
    truthyOrZero o = .num (numConfOf o) := by
  rcases h with rfl | ⟨q, rfl⟩
  · rfl
  · dsimp only [truthyOrZero, numConfOf]
    by_cases h0 : q = 0
    · subst h0; simp [jsTruthy]
    · simp [jsTruthy, h0]

/-- The aggregation body on three numeric entries is the mean of the
strictly positive ones (zero when there are none). -/
theorem calcConf_nums (c1 rc cc : ℚ) :
    (let confidences : List Json := [.num c1, .num rc, .num cc]
     let valid := confidences.filter jsGtZero
     if valid.isEmpty then JsNum.num 0
     else jsDivByLen (valid.foldl jsAdd (.n 0)) valid.length) =
      .num (let pos := [c1, rc, cc].filter (fun x => decide (0 < x))
            if pos = [] then 0 else pos.sum / (pos.length : ℚ)) := by
  show (if (([c1, rc, cc].map Json.num).filter jsGtZero).isEmpty then JsNum.num 0
    else jsDivByLen ((([c1, rc, cc].map Json.num).filter jsGtZero).foldl jsAdd (.n 0))
      ((([c1, rc, cc].map Json.num).filter jsGtZero)).length) = _
  rw [filter_jsGtZero_map_num]
  generalize [c1, rc, cc].filter (fun x => decide (0 < x)) = pos
  cases pos with
  | nil => rfl
  | cons p ps =>
    rw [foldl_jsAdd_map_num]
    simp [jsDivByLen]

/-- When the risk and compliance confidences are absent or numeric, the
aggregation stays numeric and equals the mean of the strictly positive
entries (zero when there are none). -/
theorem calculateOverallConfidence_numeric (c1 : ℚ) (rr : StageReturn RiskData)
    (cr : StageReturn ComplianceData)
    (h2 : ∀ rd, rr = .success rd →
      rd.confidence = none ∨ ∃ q : ℚ, rd.confidence = some (.num q))
    (h3 : ∀ cd, cr = .success cd →
      cd.confidence = none ∨ ∃ q : ℚ, cd.confidence = some (.num q)) :
    calculateOverallConfidence c1 rr cr =
      .num (let pos := [c1, riskConfVal rr, compConfVal cr].filter (fun x => decide (0 < x))
            if pos = [] then 0 else pos.sum / (pos.length : ℚ)) := by
  cases rr with
  | success rd =>
    have hr := truthyOrZero_numval rd.confidence (h2 rd rfl)
    cases cr with
    | success cd =>
      have hc := truthyOrZero_numval cd.confidence (h3 cd rfl)
      simp only [calculateOverallConfidence, riskConfVal, compConfVal, hr, hc]
      exact calcConf_nums c1 (numConfOf rd.confidence) (numConfOf cd.confidence)
    | failure e fb =>
      simp only [calculateOverallConfidence, riskConfVal, compConfVal, hr]
      exact calcConf_nums c1 (numConfOf rd.confidence) 0
    | bare fb =>
      simp only [calculateOverallConfidence, riskConfVal, compConfVal, hr]
      exact calcConf_nums c1 (numConfOf rd.confidence) 0
  | failure e fb =>
    cases cr with
    | success cd =>
      have hc := truthyOrZero_numval cd.confidence (h3 cd rfl)
      simp only [calculateOverallConfidence, riskConfVal, compConfVal, hc]
      exact calcConf_nums c1 0 (numConfOf cd.confidence)
    | failure e2 fb2 =>
      exact calcConf_nums c1 0 0
    | bare fb2 =>
      exact calcConf_nums c1 0 0
  | bare fb =>
    cases cr with
    | success cd =>
      have hc := truthyOrZero_numval cd.confidence (h3 cd rfl)
      simp only [calculateOverallConfidence, riskConfVal, compConfVal, hc]
      exact calcConf_nums c1 0 (numConfOf cd.confidence)
    | failure e2 fb2 =>
      exact calcConf_nums c1 0 0
    | bare fb2 =>
      exact calcConf_nums c1 0 0

/-- The upcoming-deadline collection counts exactly the in-window key dates
across all records: the store pre-filter drops only contracts that contribute
no entries. -/
theorem upcoming_flatMap_count (now : Int) :
    ∀ cs : List Deadlines.Contract,
      ((cs.filter (fun c => c.keyDates.any (Deadlines.inWindow now))).flatMap (fun c =>
        (c.keyDates.filter (Deadlines.inWindow now)).map (fun kd =>
          (⟨c.id, c.title, kd.dateType, kd.date, kd.description⟩ : Deadlines.Deadline)))).length =
      (cs.flatMap Deadlines.Contract.keyDates).countP (Deadlines.inWindow now) := by
  intro cs
  induction cs with
  | nil => simp
  | cons c rest ih =>
    rcases hc : c.keyDates.any (Deadlines.inWindow now) with _ | _
    · have hz : c.keyDates.countP (Deadlines.inWindow now) = 0 := by
        rw [List.countP_eq_zero]
        intro kd hkd
        exact List.any_eq_false.mp hc kd hkd
      simp only [List.filter_cons, hc, Bool.false_eq_true, if_false, List.flatMap_cons,
        List.countP_append, ih, hz, Nat.zero_add]
    · simp only [List.filter_cons, hc, if_true, List.flatMap_cons, List.length_append,
        List.length_map, List.countP_append, ih, List.countP_eq_length_filter,
        List.filter_append]

/-- C9: a key date counts as upcoming exactly when it lies in the closed
window `[now, now + 30 days]`; a date exactly 30 days out is included, one
second later is excluded; and the dashboard `upcomingDeadlines` figure is the
count of in-window key dates across all records. -/
theorem claim9_deadline_window (now : Int) (contracts : List Deadlines.Contract) :
    (∀ kd : Deadlines.KeyDate,
      Deadlines.inWindow now kd = true ↔
        now ≤ kd.date ∧ kd.date ≤ now + 30 * 24 * 60 * 60 * 1000)
    ∧ Deadlines.inWindow now ⟨[], now + Deadlines.thirtyDaysMs, []⟩ = true
    ∧ Deadlines.inWindow now ⟨[], now + Deadlines.thirtyDaysMs + 1000, []⟩ = false
    ∧ (Deadlines.getDashboardStats contracts now).upcomingDeadlines =
        (contracts.flatMap Deadlines.Contract.keyDates).countP (Deadlines.inWindow now) := by
  refine ⟨?_, ?_, ?_, ?_⟩
  · intro kd
    simp [Deadlines.inWindow, Deadlines.thirtyDaysMs]
  · simp [Deadlines.inWindow, Deadlines.thirtyDaysMs]
  · simp [Deadlines.inWindow, Deadlines.thirtyDaysMs]
  · show (Deadlines.getUpcomingDeadlines contracts now).length = _
    unfold Deadlines.getUpcomingDeadlines
    simp only [List.length_mergeSort]
    exact upcoming_flatMap_count now contracts

/-- C2: during the merge step each extracted array field is overwritten only
when the stage returned a non-empty array, an empty or absent array leaves
the prior value untouched, and when the risk stage fails while intelligence
succeeded the record keeps its previous risk fields and still reaches status
`analyzed`. -/
theorem claim2_merge_preserves_prior (env : AnalysisEnv) (c0 : ContractRecord)
    (hne : c0.textContent.isEmpty = false) (d : IntelligenceData)
    (hint : (extractContractIntelligence env.aiEnabled env.intelligenceCap).1 = .success d)
    (hrisk : ((assessRisks env.aiEnabled env.riskCap).1).jsOk = false) :
    (∀ x xs, d.parties = some (x :: xs) → (analyzeContract env c0).2.parties = x :: xs)
    ∧ ((d.parties = none ∨ d.parties = some []) →
        (analyzeContract env c0).2.parties = c0.parties)
    ∧ (∀ x xs, d.keyDates = some (x :: xs) → (analyzeContract env c0).2.keyDates = x :: xs)
    ∧ ((d.keyDates = none ∨ d.keyDates = some []) →
        (analyzeContract env c0).2.keyDates = c0.keyDates)
    ∧ (∀ x xs, d.financialTerms = some (x :: xs) →
        (analyzeContract env c0).2.financialTerms = x :: xs)
    ∧ ((d.financialTerms = none ∨ d.financialTerms = some []) →
        (analyzeContract env c0).2.financialTerms = c0.financialTerms)
    ∧ (∀ x xs, d.clauses = some (x :: xs) → (analyzeContract env c0).2.clauses = x :: xs)
    ∧ ((d.clauses = none ∨ d.clauses = some []) →
        (analyzeContract env c0).2.clauses = c0.clauses)
    ∧ (analyzeContract env c0).2.riskLevel = c0.riskLevel
    ∧ (analyzeContract env c0).2.risks = c0.risks
    ∧ (analyzeContract env c0).2.status = .analyzed := by
  have H : (analyzeContract env c0).2.parties = setIfNonEmpty c0.parties d.parties
      ∧ (analyzeContract env c0).2.keyDates = setIfNonEmpty c0.keyDates d.keyDates
      ∧ (analyzeContract env c0).2.financialTerms =
          setIfNonEmpty c0.financialTerms d.financialTerms
      ∧ (analyzeContract env c0).2.clauses = setIfNonEmpty c0.clauses d.clauses
      ∧ (analyzeContract env c0).2.riskLevel = c0.riskLevel
      ∧ (analyzeContract env c0).2.risks = c0.risks
      ∧ (analyzeContract env c0).2.status = .analyzed := by
    simp only [analyzeContract, hne, Bool.false_eq_true, if_false, hint]
    rw [applyRisk_not_ok hrisk]
    simp
  obtain ⟨hp, hk, hf, hc, hrl, hrs, hst⟩ := H
  refine ⟨?_, ?_, ?_, ?_, ?_, ?_, ?_, ?_, hrl, hrs, hst⟩
  · intro x xs hx; rw [hp, hx]; rfl
  · rintro (hx | hx) <;> rw [hp, hx] <;> rfl
  · intro x xs hx; rw [hk, hx]; rfl
  · rintro (hx | hx) <;> rw [hk, hx] <;> rfl
  · intro x xs hx; rw [hf, hx]; rfl
  · rintro (hx | hx) <;> rw [hf, hx] <;> rfl
  · intro x xs hx; rw [hc, hx]; rfl
  · rintro (hx | hx) <;> rw [hc, hx] <;> rfl

/-- Witness for C2: a run with one extracted party, an empty key-date array
and a failing risk stage keeps the prior key dates and risk data. -/
theorem claim2_merge_preserves_prior_witness :
    (analyzeContract envMerge recPrior).2.parties =
      [Json.obj [("name".toList, .str "Acme".toList), ("role".toList, .str "provider".toList)]]
    ∧ (analyzeContract envMerge recPrior).2.keyDates = recPrior.keyDates
    ∧ (analyzeContract envMerge recPrior).2.riskLevel = recPrior.riskLevel
    ∧ (analyzeContract envMerge recPrior).2.risks = recPrior.risks
    ∧ (analyzeContract envMerge recPrior).2.status = .analyzed := by
  have h := claim2_merge_preserves_prior envMerge recPrior (by with_unfolding_all rfl)
    ⟨some [Json.obj [("name".toList, .str "Acme".toList),
        ("role".toList, .str "provider".toList)]],
      some [], none, none, some (9/10), none⟩
    (by with_unfolding_all rfl) (by with_unfolding_all rfl)
  exact ⟨h.1 _ _ rfl, h.2.2.2.1 (Or.inr rfl), h.2.2.2.2.2.2.2.2.1,
    h.2.2.2.2.2.2.2.2.2.1, h.2.2.2.2.2.2.2.2.2.2⟩

/-- Witness for C9: a corpus with one in-window and one out-of-window key
date yields a dashboard count of 1. -/
theorem claim9_deadline_window_witness :
    (Deadlines.getDashboardStats
      [⟨1, "t".toList, .pending, none, none,
        [⟨"effective".toList, 5, "d1".toList⟩,
          ⟨"renewal".toList, 99999999999, "d2".toList⟩]⟩] 0).upcomingDeadlines = 1 := by
  have h := (claim9_deadline_window 0
    [⟨1, "t".toList, .pending, none, none,
      [⟨"effective".toList, 5, "d1".toList⟩,
        ⟨"renewal".toList, 99999999999, "d2".toList⟩]⟩]).2.2.2
  rw [h]
  with_unfolding_all rfl

/-- C1 counterexample: with the capability unavailable the run does end
`failed`, but `lastError` is left unset — not "a message indicating
unavailability" — because the disabled-path fallback object carries no
`ok`/`error` fields and the orchestrator stores its (undefined) `error`. -/
theorem claim1_counterexample :
    (analyzeContract envUnavailable (freshRecord "t".toList "text".toList)).2.status = .failed
    ∧ (analyzeContract envUnavailable (freshRecord "t".toList "text".toList)).2.lastError =
        none
    ∧ (analyzeContract envUnavailable (freshRecord "t".toList "text".toList)).2.errorCount =
        1 := by
  refine ⟨?_, ?_, ?_⟩ <;> with_unfolding_all rfl

/-- C1 as amended: when the capability is unavailable every stage client
returns its static fallback without making a call, and an analyze run on a
fresh record fast-fails with status `failed` and `errorCount = 1`, but with
`lastError` left unset (the fallback carries no error message). -/
theorem claim1_unavailable_fast_fail (env : AnalysisEnv) (c0 : ContractRecord)
    (hdis : env.aiEnabled = false) (hne : c0.textContent.isEmpty = false)
    (hfresh : c0.errorCount = 0) :
    extractContractIntelligence env.aiEnabled env.intelligenceCap =
        (.bare fallbackExtraction, 0)
    ∧ assessRisks env.aiEnabled env.riskCap = (.bare fallbackRiskAssessment, 0)
    ∧ checkCompliance env.aiEnabled env.complianceCap = (.bare fallbackCompliance, 0)
    ∧ analyzePricing env.aiEnabled env.pricingCap = (.bare fallbackPricingAnalysis, 0)
    ∧ (analyzeContract env c0).1.ok = false
    ∧ (analyzeContract env c0).2.status = .failed
    ∧ (analyzeContract env c0).2.errorCount = 1
    ∧ (analyzeContract env c0).2.lastError = none := by
  have hstage : ∀ (α : Type) (convert : Json → α) (fb : α)
      (cap : Except (List Char) (List Char)),
      runStage convert fb env.aiEnabled cap = (.bare fb, 0) := by
    intro α convert fb cap
    simp [runStage, hdis]
  have hir : (extractContractIntelligence env.aiEnabled env.intelligenceCap).1 =
      .bare fallbackExtraction := by
    rw [extractContractIntelligence, hstage]
  refine ⟨hstage _ _ _ _, hstage _ _ _ _, hstage _ _ _ _, hstage _ _ _ _, ?_, ?_, ?_, ?_⟩ <;>
    simp [analyzeContract, hne, hir, handleAnalysisError, StageReturn.jsError, hfresh]

/-- Witness for C1 as amended: the fast-fail run on a concrete fresh record
in the unavailable environment. -/
theorem claim1_unavailable_fast_fail_witness :
    extractContractIntelligence envUnavailable.aiEnabled envUnavailable.intelligenceCap =
        (.bare fallbackExtraction, 0)
    ∧ assessRisks envUnavailable.aiEnabled envUnavailable.riskCap =
        (.bare fallbackRiskAssessment, 0)
    ∧ checkCompliance envUnavailable.aiEnabled envUnavailable.complianceCap =
        (.bare fallbackCompliance, 0)
    ∧ analyzePricing envUnavailable.aiEnabled envUnavailable.pricingCap =
        (.bare fallbackPricingAnalysis, 0)
    ∧ (analyzeContract envUnavailable (freshRecord "t".toList "text".toList)).1.ok = false
    ∧ (analyzeContract envUnavailable (freshRecord "t".toList "text".toList)).2.status =
        .failed
    ∧ (analyzeContract envUnavailable (freshRecord "t".toList "text".toList)).2.errorCount = 1
    ∧ (analyzeContract envUnavailable (freshRecord "t".toList "text".toList)).2.lastError =
        none :=
  claim1_unavailable_fast_fail envUnavailable (freshRecord "t".toList "text".toList)
    rfl (by with_unfolding_all rfl) rfl

/-- A run on a record with empty text returns early without touching it. -/
theorem analyzeContract_empty (env : AnalysisEnv) (c : ContractRecord)
    (h : c.textContent.isEmpty = true) :
    analyzeContract env c = (⟨false, some "Contract has no text content".toList⟩, c) := by
  simp [analyzeContract, h]

/-- A run on non-empty text ends either in the failure write (status
`failed`, `errorCount` incremented, `lastError` taken from the intelligence
result) or in the success write (status `analyzed`, `errorCount` reset,
`lastError` cleared). -/
theorem analyzeContract_run_cases (env : AnalysisEnv) (c : ContractRecord)
    (hne : c.textContent.isEmpty = false) :
    ((analyzeContract env c).2.status = .failed
      ∧ (analyzeContract env c).2.errorCount = c.errorCount + 1
      ∧ (analyzeContract env c).2.lastError =
          ((extractContractIntelligence env.aiEnabled env.intelligenceCap).1).jsError
      ∧ ((extractContractIntelligence env.aiEnabled env.intelligenceCap).1).jsOk = false)
    ∨ ((analyzeContract env c).2.status = .analyzed
      ∧ (analyzeContract env c).2.errorCount = 0
      ∧ (analyzeContract env c).2.lastError = none) := by
  rcases hir : (extractContractIntelligence env.aiEnabled env.intelligenceCap).1 with
    d | ⟨e, fb⟩ | fb
  · right
    simp [analyzeContract, hne, hir]
  · left
    simp [analyzeContract, hne, hir, handleAnalysisError, StageReturn.jsError,
      StageReturn.jsOk]
  · left
    simp [analyzeContract, hne, hir, handleAnalysisError, StageReturn.jsError,
      StageReturn.jsOk]

/-- C6 counterexample: a reachable record whose status is `failed` while
`lastError` is unset — the failure state written when the intelligence stage
fast-fails on an unavailable capability. -/
theorem claim6_counterexample :
    Reachable (analyzeContract envUnavailable (freshRecord "t".toList "text".toList)).2
    ∧ (analyzeContract envUnavailable (freshRecord "t".toList "text".toList)).2.status =
        .failed
    ∧ (analyzeContract envUnavailable (freshRecord "t".toList "text".toList)).2.lastError =
        none :=
  ⟨.analyze envUnavailable (.upload "t".toList "text".toList),
    by with_unfolding_all rfl, by with_unfolding_all rfl⟩

/-- C6 as amended: on every reachable record, `status = failed` still implies
`errorCount ≥ 1`; `lastError` carries exactly the failing intelligence
result's error field — a non-empty parser message on parse failures, the
capability message on capability errors, and nothing on the unavailable
fast-fail path (whose bare fallback has no error field). -/
theorem claim6_failed_invariant :
    (∀ c, Reachable c → c.status = .failed → 1 ≤ c.errorCount)
    ∧ (∀ (env : AnalysisEnv) (c : ContractRecord), c.textContent.isEmpty = false →
        (analyzeContract env c).2.status = .failed →
        (analyzeContract env c).2.lastError =
          ((extractContractIntelligence env.aiEnabled env.intelligenceCap).1).jsError)
    ∧ (∀ e, invalidFormatMsg e ≠ []) := by
  refine ⟨?_, ?_, ?_⟩
  · intro c hreach
    induction hreach with
    | upload t text => intro h; simp [freshRecord] at h
    | processing h hne ih => intro hst; simp at hst
    | analyze env h ih =>
      rename_i c'
      intro hst
      by_cases hemp : c'.textContent.isEmpty = true
      · rw [analyzeContract_empty env c' hemp] at hst ⊢
        exact ih hst
      · rcases analyzeContract_run_cases env c' (by simpa using hemp) with
          ⟨h1, h2, h3, h4⟩ | ⟨h1, h2, h3⟩
        · rw [h2]; omega
        · rw [h1] at hst; simp at hst
  · intro env c hne hst
    rcases analyzeContract_run_cases env c hne with ⟨h1, h2, h3, h4⟩ | ⟨h1, h2, h3⟩
    · exact h3
    · rw [h1] at hst; simp at hst
  · intro e
    cases e <;> simp [invalidFormatMsg]

/-- Witness for C6 as amended: a concrete reachable failed record has
`errorCount ≥ 1`. -/
theorem claim6_failed_invariant_witness :
    1 ≤ (analyzeContract envFailing (freshRecord "t".toList "text".toList)).2.errorCount :=
  claim6_failed_invariant.1 _
    (.analyze envFailing (.upload "t".toList "text".toList))
    (by with_unfolding_all rfl)

/-- C7 counterexample: one failed run takes `errorCount` to 1 and a later
successful run resets it to 0 — a decrease, contradicting "never
decremented by any operation". -/
theorem claim7_counterexample :
    (analyzeContract envFailing (freshRecord "t".toList "text".toList)).2.errorCount = 1
    ∧ (analyzeContract envSucceeding
        (analyzeContract envFailing (freshRecord "t".toList "text".toList)).2).2.errorCount =
        0
    ∧ Reachable (analyzeContract envSucceeding
        (analyzeContract envFailing (freshRecord "t".toList "text".toList)).2).2 :=
  ⟨by with_unfolding_all rfl, by with_unfolding_all rfl,
    .analyze envSucceeding (.analyze envFailing (.upload "t".toList "text".toList))⟩

/-- C7 as amended: `errorCount` is incremented by each failed analysis
attempt and is reset to 0 by a successful run — the only operation that
lowers it; a run on empty text leaves the record untouched. -/
theorem claim7_errorCount_dynamics (env : AnalysisEnv) (c0 : ContractRecord) :
    (c0.textContent.isEmpty = true → (analyzeContract env c0).2 = c0)
    ∧ (c0.textContent.isEmpty = false →
        ((analyzeContract env c0).2.status = .failed →
          (analyzeContract env c0).2.errorCount = c0.errorCount + 1)
        ∧ ((analyzeContract env c0).2.status = .analyzed →
          (analyzeContract env c0).2.errorCount = 0)) := by
  constructor
  · intro h; rw [analyzeContract_empty env c0 h]
  · intro hne
    rcases analyzeContract_run_cases env c0 hne with ⟨h1, h2, h3, h4⟩ | ⟨h1, h2, h3⟩
    · exact ⟨fun _ => h2, fun hst => by rw [h1] at hst; simp at hst⟩
    · exact ⟨fun hst => by rw [h1] at hst; simp at hst, fun _ => h2⟩

/-- Witness for C7 as amended: the failed run increments the fresh record's
counter to 1. -/
theorem claim7_errorCount_dynamics_witness :
    (analyzeContract envFailing (freshRecord "t".toList "text".toList)).2.errorCount =
      (freshRecord "t".toList "text".toList).errorCount + 1 :=
  ((claim7_errorCount_dynamics envFailing (freshRecord "t".toList "text".toList)).2
    (by with_unfolding_all rfl)).1 (by with_unfolding_all rfl)

/-- Mean of the positive entries of a list of values in `[0, 1]` stays in
`[0, 1]`. -/
theorem meanPos_bounds (L : List ℚ) (h : ∀ x ∈ L, 0 ≤ x ∧ x ≤ 1) :
    0 ≤ (if L.filter (fun c => decide (0 < c)) = [] then (0 : ℚ)
         else (L.filter (fun c => decide (0 < c))).sum /
           ((L.filter (fun c => decide (0 < c))).length : ℚ))
    ∧ (if L.filter (fun c => decide (0 < c)) = [] then (0 : ℚ)
         else (L.filter (fun c => decide (0 < c))).sum /
           ((L.filter (fun c => decide (0 < c))).length : ℚ)) ≤ 1 := by
  generalize hf : L.filter (fun c => decide (0 < c)) = V
  have hmem : ∀ x ∈ V, 0 ≤ x ∧ x ≤ 1 := by
    intro x hx
    exact h x (List.mem_of_mem_filter (hf ▸ hx))
  by_cases hv : V = []
  · simp [hv]
  · simp only [hv, if_false]
    have hlen : 0 < (V.length : ℚ) := by
      exact_mod_cast List.length_pos.mpr hv
    constructor
    · exact div_nonneg (sum_nonneg_of_nonneg V fun x hx => (hmem x hx).1) hlen.le
    · rw [div_le_one hlen]
      exact sum_le_length_of_le_one V fun x hx => (hmem x hx).2

/-- When every parsed stage confidence is absent or a number in `[0, 1]`,
the aggregated confidence is a finite number in `[0, 1]`. -/
theorem calculateOverallConfidence_bounds (c1 : ℚ) (rr : StageReturn RiskData)
    (cr : StageReturn ComplianceData) (h1 : 0 ≤ c1 ∧ c1 ≤ 1)
    (h2 : ∀ rd, rr = .success rd → rd.confidence = none ∨
      ∃ q : ℚ, rd.confidence = some (.num q) ∧ 0 ≤ q ∧ q ≤ 1)
    (h3 : ∀ cd, cr = .success cd → cd.confidence = none ∨
      ∃ q : ℚ, cd.confidence = some (.num q) ∧ 0 ≤ q ∧ q ≤ 1) :
    ∃ qq : ℚ, calculateOverallConfidence c1 rr cr = .num qq ∧ 0 ≤ qq ∧ qq ≤ 1 := by
  have h2s : ∀ rd, rr = .success rd →
      rd.confidence = none ∨ ∃ q : ℚ, rd.confidence = some (.num q) :=
    fun rd hrd => (h2 rd hrd).imp id (fun hex => ⟨hex.choose, hex.choose_spec.1⟩)
  have h3s : ∀ cd, cr = .success cd →
      cd.confidence = none ∨ ∃ q : ℚ, cd.confidence = some (.num q) :=
    fun cd hcd => (h3 cd hcd).imp id (fun hex => ⟨hex.choose, hex.choose_spec.1⟩)
  rw [calculateOverallConfidence_numeric c1 rr cr h2s h3s]
  refine ⟨_, rfl, ?_⟩
  have hb : ∀ x ∈ [c1, riskConfVal rr, compConfVal cr], 0 ≤ x ∧ x ≤ 1 := by
    intro x hx
    simp only [List.mem_cons, List.not_mem_nil, or_false] at hx
    rcases hx with rfl | rfl | rfl
    · exact h1
    · cases rr with
      | success d =>
        rcases h2 d rfl with hn | ⟨q, hq, hq0, hq1⟩
        · simp only [riskConfVal]; rw [hn]; exact ⟨le_refl 0, zero_le_one⟩
        · simp only [riskConfVal]; rw [hq]; exact ⟨hq0, hq1⟩
      | failure e fb => exact ⟨le_refl 0, zero_le_one⟩
      | bare fb => exact ⟨le_refl 0, zero_le_one⟩
    · cases cr with
      | success d =>
        rcases h3 d rfl with hn | ⟨q, hq, hq0, hq1⟩
        · simp only [compConfVal]; rw [hn]; exact ⟨le_refl 0, zero_le_one⟩
        · simp only [compConfVal]; rw [hq]; exact ⟨hq0, hq1⟩
      | failure e fb => exact ⟨le_refl 0, zero_le_one⟩
      | bare fb => exact ⟨le_refl 0, zero_le_one⟩
  exact meanPos_bounds _ hb

/-- C8 counterexample: a reachable record stores the out-of-range
compliance score 150 verbatim. -/
theorem claim8_counterexample :
    Reachable (analyzeContract envScore150 (freshRecord "t".toList "text".toList)).2
    ∧ (analyzeContract envScore150
        (freshRecord "t".toList "text".toList)).2.complianceScore = some (.num 150)
    ∧ ¬ ((150 : ℚ) ≤ 100) :=
  ⟨.analyze envScore150 (.upload "t".toList "text".toList),
    by with_unfolding_all rfl, by norm_num⟩

/-- C8 as amended: the pipeline stores the compliance score exactly as the
stage produced it, with no range validation (and leaves the prior value when
the stage failed); the bounds of the claim hold only conditionally — when
the parsed intelligence confidence lies in `[0, 1]` and each of the risk
and compliance confidences is absent or a number in `[0, 1]`, the stored
`aiConfidenceScore` is a number in `[0, 1]`.  (A truthy non-numeric
confidence escapes the bounds through JavaScript string coercion, so the
hypotheses must exclude it explicitly.) -/
theorem claim8_no_range_validation (env : AnalysisEnv) (c0 : ContractRecord)
    (hne : c0.textContent.isEmpty = false) (d : IntelligenceData)
    (hint : (extractContractIntelligence env.aiEnabled env.intelligenceCap).1 =
      .success d) :
    (∀ cd, (checkCompliance env.aiEnabled env.complianceCap).1 = .success cd →
      (analyzeContract env c0).2.complianceScore = cd.complianceScore)
    ∧ (((checkCompliance env.aiEnabled env.complianceCap).1).jsOk = false →
      (analyzeContract env c0).2.complianceScore = c0.complianceScore)
    ∧ ((∀ q, d.confidence = some q → 0 ≤ q ∧ q ≤ 1) →
      (∀ rd, (assessRisks env.aiEnabled env.riskCap).1 = .success rd →
        rd.confidence = none ∨ ∃ q : ℚ, rd.confidence = some (.num q) ∧ 0 ≤ q ∧ q ≤ 1) →
      (∀ cd, (checkCompliance env.aiEnabled env.complianceCap).1 = .success cd →
        cd.confidence = none ∨ ∃ q : ℚ, cd.confidence = some (.num q) ∧ 0 ≤ q ∧ q ≤ 1) →
      ∃ qq : ℚ, (analyzeContract env c0).2.aiConfidenceScore = some (.num qq)
        ∧ 0 ≤ qq ∧ qq ≤ 1) := by
  have hscore : (analyzeContract env c0).2.complianceScore =
      (applyCompliance (applyRisk (mergeIntelligence { c0 with status := .processing } d)
        (assessRisks env.aiEnabled env.riskCap).1)
        (checkCompliance env.aiEnabled env.complianceCap).1).complianceScore := by
    simp only [analyzeContract, hne, Bool.false_eq_true, if_false, hint]
    simp
  have hconf : (analyzeContract env c0).2.aiConfidenceScore =
      some (calculateOverallConfidence (d.confidence.getD 0)
        (assessRisks env.aiEnabled env.riskCap).1
        (checkCompliance env.aiEnabled env.complianceCap).1) := by
    simp only [analyzeContract, hne, Bool.false_eq_true, if_false, hint]
    simp
  refine ⟨?_, ?_, ?_⟩
  · intro cd hcd
    rw [hscore, hcd, applyCompliance_success]
  · intro hnok
    rw [hscore, applyCompliance_not_ok hnok]
    simp
  · intro hd hr hc
    have h1 : 0 ≤ d.confidence.getD 0 ∧ d.confidence.getD 0 ≤ 1 := by
      cases hq : d.confidence with
      | none => simp
      | some q => simpa using hd q hq
    obtain ⟨qq, hq, hbd⟩ := calculateOverallConfidence_bounds (d.confidence.getD 0)
      (assessRisks env.aiEnabled env.riskCap).1
      (checkCompliance env.aiEnabled env.complianceCap).1 h1 hr hc
    exact ⟨qq, by rw [hconf, hq], hbd⟩

/-- Fence stripping only deletes characters: every character of the output
occurs in the input. -/
theorem stripPatAux_mem_subset (pat : List Char) :
    ∀ (fuel : Nat) (l : List Char) (c : Char), c ∈ stripPatAux pat fuel l → c ∈ l := by
  intro fuel
  induction fuel with
  | zero => intro l c hc; rwa [stripPatAux] at hc
  | succ n ih =>
    intro l c hc
    match l with
    | [] => rw [stripPatAux] at hc; exact hc
    | x :: xs =>
      rw [stripPatAux] at hc
      by_cases hp : pat.isPrefixOf (x :: xs)
      · rw [if_pos hp] at hc
        have h1 := ih _ c hc
        have h2 : c ∈ (x :: xs).drop pat.length := by
          by_cases hh : ((x :: xs).drop pat.length).head? = some '\n'
          · rw [if_pos hh] at h1
            exact List.tail_subset _ h1
          · rwa [if_neg hh] at h1
        exact List.drop_subset _ _ h2
      · rw [if_neg hp] at hc
        rcases List.mem_cons.mp hc with rfl | hmem
        · exact List.mem_cons_self _ _
        · exact List.mem_cons_of_mem _ (ih _ c hmem)

/-- Witness for C8 as amended: an in-range compliance run stores its score
verbatim. -/
theorem claim8_no_range_validation_witness :
    (analyzeContract envConfExample (freshRecord "t".toList "text".toList)).2.complianceScore =
      some (.num 80) := by
  have h := (claim8_no_range_validation envConfExample
    (freshRecord "t".toList "text".toList) (by with_unfolding_all rfl)
    ⟨none, none, none, none, some (9/10), none⟩ (by with_unfolding_all rfl)).1
    ⟨some (.num 80), some [], none, some (.num (6/10))⟩ (by with_unfolding_all rfl)
  simpa using h

/-- Markdown-fence removal introduces no new characters. -/
theorem removeFences_mem_subset (l : List Char) (c : Char) (hc : c ∈ removeFences l) :
    c ∈ l := by
  unfold removeFences at hc
  exact stripPatAux_mem_subset _ _ _ _ (stripPatAux_mem_subset _ _ _ _ hc)

/-- Trimming introduces no new characters. -/
theorem jsTrim_mem_subset (l : List Char) (c : Char) (hc : c ∈ jsTrim l) : c ∈ l := by
  unfold jsTrim at hc
  rw [List.mem_reverse] at hc
  have h1 := (List.dropWhile_sublist _).subset hc
  rw [List.mem_reverse] at h1
  exact (List.dropWhile_sublist (l := l) _).subset h1

/-- An input without a left brace fails with `NoStructureFound`: the cleanup
passes cannot create one, so the brace-span match fails. -/
theorem parseAIResponse_no_brace (s : List Char) (hl : lbrace ∉ s) :
    parseAIResponse s = .error .noStructureFound := by
  have hclean : lbrace ∉ jsTrim (removeFences s) := by
    intro hmem
    exact hl (removeFences_mem_subset s lbrace (jsTrim_mem_subset _ lbrace hmem))
  have hdrop : (jsTrim (removeFences s)).dropWhile (fun c => !(c == lbrace)) = [] := by
    rw [List.dropWhile_eq_nil_iff]
    intro x hx
    simp only [Bool.not_eq_eq_eq_not, Bool.not_true, beq_eq_false_iff_ne, ne_eq]
    intro hxx
    exact hclean (hxx ▸ hx)
  simp only [parseAIResponse, extractBraceSpan, hdrop]

/-- C4 counterexample: the single-quoted spec input does not parse; the
repair ladder re-quotes only values after colons and a key directly after
the opening brace, so the key after the comma stays single-quoted and the
second strict parse fails with `Unparseable`. -/
theorem claim4_counterexample :
    parseAIResponse singleQuotedInput = .error .unparseable := by
  with_unfolding_all rfl

/-- C4 as amended: the spec's single-quoted input fails with `Unparseable`
(the repair ladder handles a single-quoted value after a colon and a
single-quoted key directly after the opening brace, as the one-pair variant
shows, but not a key following a comma), while any input containing no brace
characters fails with `NoStructureFound`. -/
theorem claim4_parser_repair :
    parseAIResponse singleQuotedInput = .error .unparseable
    ∧ parseAIResponse "\x7b\x27riskLevel\x27: \x27high\x27\x7d".toList =
        .ok (.obj [("riskLevel".toList, .str "high".toList)])
    ∧ (∀ s : List Char, lbrace ∉ s → rbrace ∉ s →
        parseAIResponse s = .error .noStructureFound) :=
  ⟨by with_unfolding_all rfl, by with_unfolding_all rfl,
    fun s hl _ => parseAIResponse_no_brace s hl⟩

/-- Witness for C4 as amended: a concrete brace-free input fails with
`NoStructureFound`. -/
theorem claim4_parser_repair_witness :
    lbrace ∉ "no json here".toList ∧ rbrace ∉ "no json here".toList ∧
      parseAIResponse "no json here".toList = .error .noStructureFound :=
  ⟨by decide, by decide,
    claim4_parser_repair.2.2 "no json here".toList (by decide) (by decide)⟩

/-- A list avoiding a character `c` that is a prefix of `X ++ c :: Y` is a
prefix of `X`. -/
theorem prefix_append_cons_of_not_mem {s : List Char} {c : Char} (hc : c ∉ s) :
    ∀ {X Y : List Char}, s <+: X ++ c :: Y → s <+: X := by
  induction s with
  | nil => intro X Y _; exact List.nil_prefix
  | cons a s' ih =>
    intro X Y h
    match X with
    | [] =>
      rw [List.nil_append, List.cons_prefix_cons] at h
      exact absurd (h.1 ▸ List.mem_cons_self a s') hc
    | x :: X' =>
      rw [List.cons_append, List.cons_prefix_cons] at h
      have hc' : c ∉ s' := fun hm => hc (List.mem_cons_of_mem _ hm)
      exact List.cons_prefix_cons.mpr ⟨h.1, ih hc' h.2⟩

/-- A non-empty list avoiding `c` that is an infix of `X ++ c :: Y` is an
infix of `X` or of `Y`: an occurrence cannot straddle the excluded
character. -/
theorem infix_append_cons_of_not_mem {s : List Char} {c : Char} (hne : s ≠ [])
    (hc : c ∉ s) : ∀ (X Y : List Char), s <:+: X ++ c :: Y → s <:+: X ∨ s <:+: Y := by
  intro X
  induction X with
  | nil =>
    intro Y h
    rw [List.nil_append, List.infix_cons_iff] at h
    rcases h with hpre | hinf
    · match s, hne with
      | a :: s', _ =>
        rw [List.cons_prefix_cons] at hpre
        exact absurd (hpre.1 ▸ List.mem_cons_self a s') hc
    · exact Or.inr hinf
  | cons x X' ih =>
    intro Y h
    rw [List.cons_append, List.infix_cons_iff] at h
    rcases h with hpre | hinf
    · exact Or.inl (prefix_append_cons_of_not_mem hc hpre).isInfix
    · rcases ih Y hinf with hX | hY
      · exact Or.inl (List.infix_cons hX)
      · exact Or.inr hY

/-- A non-empty whitespace-free infix of the input survives into one of the
whitespace-split tokens. -/
theorem splitWsGo_infix {s : List Char} (hne : s ≠ [])
    (hws : ∀ c ∈ s, isWsChar c = false) :
    ∀ (l acc : List Char) (inSep : Bool), (inSep = true → acc = []) →
      s <:+: acc.reverse ++ l → ∃ t ∈ splitWsGo inSep acc l, s <:+: t := by
  intro l
  induction l with
  | nil =>
    intro acc inSep _ hinf
    rw [List.append_nil] at hinf
    exact ⟨acc.reverse, by simp [splitWsGo], hinf⟩
  | cons c cs ih =>
    intro acc inSep hacc hinf
    by_cases hc : isWsChar c = true
    · have hcs : c ∉ s := fun hm => by rw [hws c hm] at hc; exact Bool.false_ne_true hc
      rcases infix_append_cons_of_not_mem hne hcs acc.reverse cs hinf with hL | hR
      · cases inSep with
        | true =>
          rw [hacc rfl] at hL
          simp only [List.reverse_nil, List.infix_nil] at hL
          exact absurd hL hne
        | false =>
          exact ⟨acc.reverse, by simp [splitWsGo, hc], hL⟩
      · cases inSep with
        | true =>
          obtain ⟨t, ht, hts⟩ := ih [] true (fun _ => rfl) (by simpa using hR)
          exact ⟨t, by simpa [splitWsGo, hc] using ht, hts⟩
        | false =>
          obtain ⟨t, ht, hts⟩ := ih [] true (fun _ => rfl) (by simpa using hR)
          exact ⟨t, by simp only [splitWsGo, hc, if_true]; exact List.mem_cons_of_mem _ ht,
            hts⟩
    · have hinf' : s <:+: (c :: acc).reverse ++ cs := by
        rw [List.reverse_cons, List.append_assoc]
        simpa using hinf
      obtain ⟨t, ht, hts⟩ := ih (c :: acc) false (by intro h; exact absurd h (by simp))
        hinf'
      refine ⟨t, ?_, hts⟩
      simpa [splitWsGo, hc] using ht

/-- A filter keeping every character of `s` preserves the infix relation. -/
theorem IsInfix.filter_of_all {s l : List Char} {p : Char → Bool} (hinf : s <:+: l)
    (hall : ∀ c ∈ s, p c = true) : s <:+: l.filter p := by
  obtain ⟨u, v, huv⟩ := hinf
  refine ⟨u.filter p, v.filter p, ?_⟩
  rw [← huv, List.filter_append, List.filter_append, List.filter_eq_self.mpr hall]

/-- Core lemma for C10: a feature tag (non-empty, whitespace-free word
characters, lower-case, longer than 4 characters) cannot occur in a text all
of whose tokens have at most 4 characters. -/
theorem feature_not_infix {text f : List Char} (hne : f ≠ [])
    (hch : ∀ c ∈ f, isWsChar c = false ∧ isWordChar c = true ∧ c.toLower = c)
    (hlen : 4 < f.length) (htok : ∀ t ∈ jsTokens text, t.length ≤ 4) :
    ¬ (f <:+: text) := by
  intro hinf
  have h1 : f <:+: text.map Char.toLower := by
    have hmap := hinf.map Char.toLower
    have hfix : f.map Char.toLower = f := by
      rw [List.map_congr_left (fun c hc => (hch c hc).2.2)]
      exact List.map_id' f
    rwa [hfix] at hmap
  have h2 : f <:+: (text.map Char.toLower).filter (fun c => isWordChar c || isWsChar c) :=
    IsInfix.filter_of_all h1 (fun c hc => by
      rw [(hch c hc).2.1]
      rfl)
  obtain ⟨t, ht, hts⟩ := splitWsGo_infix hne (fun c hc => (hch c hc).1) _ [] false
    (by intro h; exact absurd h (by simp)) (by simpa using h2)
  have := hts.length_le
  have := htok t ht
  omega

/-- When no tag matches the target text, the feature filter succeeds with
the empty list for any candidate text, present or absent. -/
theorem findMatchedFeaturesAux_none (text : List Char) (t2 : Option (List Char)) :
    ∀ tags : List (List Char), (∀ f ∈ tags, ¬ (f <:+: text)) →
      findMatchedFeaturesAux text t2 tags = .ok [] := by
  intro tags
  induction tags with
  | nil => intro _; rfl
  | cons f fs ih =>
    intro h
    simp only [findMatchedFeaturesAux]
    rw [if_neg]
    · exact ih fun g hg => h g (List.mem_cons_of_mem _ hg)
    · simp only [decide_eq_true_eq]
      exact h f (List.mem_cons_self _ _)

/-- `mapExcept` over a function that succeeds pointwise is the plain map. -/
theorem mapExcept_ok {α β ε : Type} (f : α → Except ε β) (g : α → β) :
    ∀ l : List α, (∀ a ∈ l, f a = .ok (g a)) → mapExcept f l = .ok (l.map g) := by
  intro l
  induction l with
  | nil => intro _; rfl
  | cons a as ih =>
    intro h
    rw [mapExcept, h a (List.mem_cons_self _ _), ih fun b hb => h b (List.mem_cons_of_mem _ hb)]
    rfl

/-- With an empty keyword list the similarity is `0` for every candidate
(JavaScript's `0/0 = NaN` and this model's `0` both fail the strict `> 0.3`
threshold). -/
theorem calculateSimilarity_nil (t2 : Option (List Char)) :
    calculateSimilarity [] t2 = 0 := by
  cases t2 with
  | none => rfl
  | some t =>
    by_cases h : t.isEmpty
    · simp [calculateSimilarity, h]
    · simp [calculateSimilarity, h]

/-- C10: when every token of the target text (after lower-casing, stripping
non-word characters and splitting on whitespace) has at most 4 characters,
the keyword set is empty and `findSimilarContracts` succeeds with the empty
list on every candidate pool: the division by the keyword count raises no
error and no candidate passes the threshold. -/
theorem claim10_short_tokens_safe (text : List Char) (cands : List SimCandidate)
    (htok : ∀ t ∈ jsTokens text, t.length ≤ 4) :
    extractKeywords text = [] ∧ findSimilarContracts text cands = ⟨true, []⟩ := by
  have hkw : keywordTokens text = [] := by
    rw [keywordTokens, List.filter_eq_nil_iff]
    intro t ht
    simp only [decide_eq_true_eq, not_lt]
    exact htok t ht
  have hkeys : extractKeywords text = [] := by
    unfold extractKeywords
    rw [hkw]
    simp [jsObjectEntries, List.mergeSort_nil]
  have hfeat : ∀ f ∈ featureTags, ¬ (f <:+: text) := by
    intro f hf
    have hf5 : f ∈ featureTags := hf
    fin_cases hf5 <;>
      exact feature_not_infix (by decide) (by decide) (by decide) htok
  have hscore : ∀ c ∈ cands, scoreCandidate (extractKeywords text) text c =
      .ok ⟨c.id, 0, []⟩ := by
    intro c _
    rw [scoreCandidate, findMatchedFeatures, findMatchedFeaturesAux_none text c.textContent
      featureTags hfeat, hkeys, calculateSimilarity_nil]
  constructor
  · exact hkeys
  · rw [findSimilarContracts, hkeys,
      mapExcept_ok _ (fun c : SimCandidate => (⟨c.id, 0, []⟩ : SimEntry)) cands
        (by simpa [hkeys] using hscore)]
    have hfilt : (cands.map (fun c : SimCandidate => (⟨c.id, 0, []⟩ : SimEntry))).filter
        (fun e => decide ((3 : ℚ) / 10 < e.similarity)) = [] := by
      rw [List.filter_eq_nil_iff]
      intro e he
      rw [List.mem_map] at he
      obtain ⟨c, _, rfl⟩ := he
      simp only [decide_eq_true_eq, not_lt]
      norm_num
    dsimp only
    rw [hfilt, List.mergeSort_nil]
    rfl

/-- Witness for C10: a concrete short-token text against a pool with
missing, empty and long candidate texts. -/
theorem claim10_short_tokens_safe_witness :
    extractKeywords shortTokenText = []
    ∧ findSimilarContracts shortTokenText [⟨9, none⟩, ⟨10, some []⟩, simCand6] =
        ⟨true, []⟩ :=
  claim10_short_tokens_safe shortTokenText [⟨9, none⟩, ⟨10, some []⟩, simCand6]
    (by decide)

/-- With a present candidate text the feature filter never throws. -/
theorem findMatchedFeaturesAux_some_ok (t1 tt : List Char) :
    ∀ tags : List (List Char), ∃ fs, findMatchedFeaturesAux t1 (some tt) tags = .ok fs := by
  intro tags
  induction tags with
  | nil => exact ⟨[], rfl⟩
  | cons f fs ih =>
    obtain ⟨r, hr⟩ := ih
    by_cases hf : decide (f <:+: t1) = true
    · refine ⟨if decide (f <:+: tt) then f :: r else r, ?_⟩
      simp only [findMatchedFeaturesAux, hf, if_true, hr]
    · refine ⟨r, ?_⟩
      simp only [findMatchedFeaturesAux, hf, Bool.false_eq_true, if_false, hr]

/-- `mapExcept` succeeds when the function succeeds on every element. -/
theorem mapExcept_ok_of_forall {α β ε : Type} {f : α → Except ε β} :
    ∀ l : List α, (∀ a ∈ l, ∃ b, f a = .ok b) → ∃ bs, mapExcept f l = .ok bs := by
  intro l
  induction l with
  | nil => exact fun _ => ⟨[], rfl⟩
  | cons a as ih =>
    intro h
    obtain ⟨b, hb⟩ := h a (List.mem_cons_self _ _)
    obtain ⟨bs, hbs⟩ := ih fun x hx => h x (List.mem_cons_of_mem _ hx)
    exact ⟨b :: bs, by rw [mapExcept, hb, hbs]⟩

/-- The similarity comparator is transitive. -/
theorem simLe_trans (a b c : SimEntry)
    (hab : decide (b.similarity ≤ a.similarity) = true)
    (hbc : decide (c.similarity ≤ b.similarity) = true) :
    decide (c.similarity ≤ a.similarity) = true := by
  simp only [decide_eq_true_eq] at *
  exact le_trans hbc hab

/-- The similarity comparator is total. -/
theorem simLe_total (a b : SimEntry) :
    (decide (b.similarity ≤ a.similarity) || decide (a.similarity ≤ b.similarity)) = true := by
  simp only [Bool.or_eq_true, decide_eq_true_eq]
  exact le_total _ _

/-- C5: on a pool whose candidates all carry a text, `findSimilarContracts`
succeeds; every returned entry has similarity strictly above 0.3; at most 5
entries are returned, sorted descending; when at most 5 candidates pass the
threshold the result is exactly the thresholded list (as a permutation), and
within each similarity class the returned entries preserve candidate input
order (stable ties).  Concretely, over the 20-keyword fixture the candidate
matching 6 keywords (similarity exactly 0.3) is excluded and the one
matching 7 (0.35) is included. -/
theorem claim5_similarity_ranking (target : List Char) (cands : List SimCandidate)
    (hall : ∀ c ∈ cands, ∃ t, c.textContent = some t) :
    (findSimilarContracts target cands).ok = true
    ∧ (∀ e ∈ (findSimilarContracts target cands).data, (3 : ℚ) / 10 < e.similarity)
    ∧ (findSimilarContracts target cands).data.length ≤ 5
    ∧ (findSimilarContracts target cands).data.Pairwise
        (fun a b => b.similarity ≤ a.similarity)
    ∧ (∀ entries, mapExcept (scoreCandidate (extractKeywords target) target) cands =
          .ok entries →
        (((entries.filter (fun e => decide ((3 : ℚ) / 10 < e.similarity))).length ≤ 5 →
          List.Perm (findSimilarContracts target cands).data
            (entries.filter (fun e => decide ((3 : ℚ) / 10 < e.similarity))))
        ∧ (∀ q : ℚ, List.Sublist
            ((findSimilarContracts target cands).data.filter
              (fun e => e.similarity == q))
            ((entries.filter (fun e => decide ((3 : ℚ) / 10 < e.similarity))).filter
              (fun e => e.similarity == q)))))
    ∧ findSimilarContracts simTarget [simCand6, simCand7] =
        ⟨true, [⟨2, 7/20, []⟩]⟩
    ∧ (extractKeywords simTarget).length = 20
    ∧ calculateSimilarity (extractKeywords simTarget) simCand6.textContent = 3/10
    ∧ calculateSimilarity (extractKeywords simTarget) simCand7.textContent = 7/20 := by
  obtain ⟨entries0, hE⟩ : ∃ es,
      mapExcept (scoreCandidate (extractKeywords target) target) cands = .ok es := by
    apply mapExcept_ok_of_forall
    intro c hc
    obtain ⟨t, ht⟩ := hall c hc
    obtain ⟨fs, hfs⟩ := findMatchedFeaturesAux_some_ok target t featureTags
    exact ⟨⟨c.id, calculateSimilarity (extractKeywords target) c.textContent, fs⟩,
      by rw [scoreCandidate, findMatchedFeatures, ht, hfs]⟩
  have hR : findSimilarContracts target cands =
      ⟨true, ((entries0.filter (fun e => decide ((3 : ℚ) / 10 < e.similarity))).mergeSort
        (fun a b => decide (b.similarity ≤ a.similarity))).take 5⟩ := by
    rw [findSimilarContracts, hE]
  refine ⟨by rw [hR], ?_, ?_, ?_, ?_, by with_unfolding_all rfl, by with_unfolding_all rfl,
    by with_unfolding_all rfl, by with_unfolding_all rfl⟩
  · intro e he
    rw [hR] at he
    have h1 := List.mem_mergeSort.mp (List.mem_of_mem_take he)
    have h2 := List.of_mem_filter h1
    exact of_decide_eq_true h2
  · rw [hR]
    exact List.length_take_le 5 _
  · rw [hR]
    have hs := @List.sorted_mergeSort SimEntry
      (fun a b => decide (b.similarity ≤ a.similarity)) simLe_trans simLe_total
      (entries0.filter (fun e => decide ((3 : ℚ) / 10 < e.similarity)))
    have hp := hs.sublist (List.take_sublist 5 _)
    exact hp.imp fun h => of_decide_eq_true h
  · intro entries hentries
    rw [hE] at hentries
    injection hentries with hentries
    subst hentries
    constructor
    · intro h5
      rw [hR]
      rw [List.take_of_length_le (by rwa [List.length_mergeSort])]
      exact List.mergeSort_perm _ _
    · intro q
      set F := entries0.filter (fun e => decide ((3 : ℚ) / 10 < e.similarity)) with hF
      set A := F.filter (fun e => e.similarity == q) with hA
      have hApair : A.Pairwise (fun a b : SimEntry =>
          decide (b.similarity ≤ a.similarity) = true) := by
        apply List.pairwise_of_forall_mem_list
        intro a ha b hb
        have ha' : a.similarity = q := by
          have := List.of_mem_filter (hA ▸ ha)
          simpa using this
        have hb' : b.similarity = q := by
          have := List.of_mem_filter (hA ▸ hb)
          simpa using this
        simp [ha', hb']
      have hstab : List.Sublist A
          (F.mergeSort (fun a b => decide (b.similarity ≤ a.similarity))) :=
        List.sublist_mergeSort simLe_trans simLe_total hApair (List.filter_sublist _)
      have hself : A.filter (fun e => e.similarity == q) = A := by
        rw [List.filter_eq_self]
        intro e he
        rw [hA] at he
        exact (List.mem_filter.mp he).2
      have hsub2 : List.Sublist A ((F.mergeSort (fun a b =>
          decide (b.similarity ≤ a.similarity))).filter (fun e => e.similarity == q)) := by
        rw [← hself]
        exact hstab.filter _
      have hperm2 : List.Perm ((F.mergeSort (fun a b =>
          decide (b.similarity ≤ a.similarity))).filter (fun e => e.similarity == q)) A :=
        (List.mergeSort_perm F _).filter _
      have hEq : A = (F.mergeSort (fun a b =>
          decide (b.similarity ≤ a.similarity))).filter (fun e => e.similarity == q) :=
        hsub2.eq_of_length hperm2.length_eq.symm
      rw [hR]
      have : List.Sublist
          (((F.mergeSort (fun a b => decide (b.similarity ≤ a.similarity))).take 5).filter
            (fun e => e.similarity == q))
          ((F.mergeSort (fun a b =>
            decide (b.similarity ≤ a.similarity))).filter (fun e => e.similarity == q)) :=
        (List.take_sublist 5 _).filter _
      rw [← hEq] at this
      exact this

/-- Witness for C5: the fixture pool instantiation. -/
theorem claim5_similarity_ranking_witness :
    findSimilarContracts simTarget [simCand6, simCand7] = ⟨true, [⟨2, 7/20, []⟩]⟩ :=
  (claim5_similarity_ranking simTarget [simCand6, simCand7]
    (by intro c hc; fin_cases hc <;> exact ⟨_, rfl⟩)).2.2.2.2.2.1

end ContractPlatform
